import Mathlib

/-!
# smartvax-reminder: `sendReminders.js`

A shallow embedding of the reminder batch job and of the parts of the
JavaScript runtime it relies on (the `Date` object, `toLocaleString` with a
`timeZone` option, template-literal formatting), followed by the properties
proved about it.

Conventions of the embedding:

* Time is counted in whole seconds; `toLocaleString` drops the milliseconds.
* A `Date` built by `new Date(x.toLocaleString('en-US', { timeZone: tz }))` is
  represented by the local clock reading it carries (seconds since
  1970-01-01T00:00:00 on the wall clock): the script reads such a date only
  through the local getters `getFullYear`, `getMonth`, `getDate`, `getDay` and
  writes it only through `setDate`, and the re-parse of the printed clock
  reading is taken to keep its calendar fields.  An unparseable date
  (`Invalid Date`) is `none`.
* A date string without offset (`YYYY-MM-DDTHH:00:00`) is read in the
  process's own zone, which therefore is a parameter (`Host.localToUTC`), as
  is the zone database (`Host.zoneOffset`).
* Every `new Date()` and `Date.now()` is a clock reading of its own: the one
  of `getDateInTZAddDays` (`World.now`), the one of each pass of the `forEach`
  callback (`World.clock`), and the one of each failure record
  (`World.dateNow`).
* The units of the recipients are independent; the embedding records which
  transport calls and store writes a run makes, not their interleaving.  What
  the interleaving decides is part of `World`: whether a rejected write is
  noticed while a handler is attached, and which writes had been issued when
  an unhandled rejection ended the process.
-/

namespace SmartVax

/-! ## Calendar arithmetic of the `Date` object -/

/-- Days from 1970-01-01 to 1 March of the March-based year `y1`
(proleptic Gregorian calendar). -/
def daysToMarchYear (y1 : Int) : Int :=
  (y1 / 400) * 146097 + (y1 % 400) * 365 + (y1 % 400) / 4 - (y1 % 400) / 100 - 719468

/-- Day number (days since 1970-01-01) of the civil date `y-m-d`, `m` counted
from 1.  Linear in `d`, so a day of the month outside the month rolls over
into the neighbouring months, as `MakeDay` does. -/
def daysFromCivil (y m d : Int) : Int :=
  let y1 := if m ≤ 2 then y - 1 else y
  let mp := if m ≤ 2 then m + 9 else m - 3
  daysToMarchYear y1 + (153 * mp + 2) / 5 + d - 1

/-- March-based year and zero-based day within that year of a day number:
400-year era, century of the era, four-year cycle of the century, year of the
cycle. -/
def marchYearDay (z : Int) : Int × Int :=
  let z1 := z + 719468
  let era := z1 / 146097
  let doe := z1 % 146097
  let c := if doe / 36524 < 3 then doe / 36524 else 3
  let doc := doe - c * 36524
  let q := doc / 1461
  let doq := doc % 1461
  let yq := if doq / 365 < 3 then doq / 365 else 3
  (era * 400 + c * 100 + q * 4 + yq, doq - yq * 365)

/-- Civil date (year, month 1..12, day of month) of a day number. -/
def civilFromDays (z : Int) : Int × Int × Int :=
  let y1 := (marchYearDay z).1
  let doy := (marchYearDay z).2
  let mp := (5 * doy + 2) / 153
  let d := doy - (153 * mp + 2) / 5 + 1
  let m := if mp < 10 then mp + 3 else mp - 9
  (if m ≤ 2 then y1 + 1 else y1, m, d)

/-- Seconds in a day. -/
def secPerDay : Int := 86400

/-- Day number of a clock reading: ECMAScript `Day(t)`. -/
def Day (t : Int) : Int := t / secPerDay

/-- Seconds since midnight of a clock reading: ECMAScript `TimeWithinDay(t)`. -/
def TimeWithinDay (t : Int) : Int := t % secPerDay

/-- The method `Date.prototype.getFullYear` on a local clock reading. -/
def getFullYear (t : Int) : Int := (civilFromDays (Day t)).1

/-- The method `Date.prototype.getMonth`: month counted from 0. -/
def getMonth (t : Int) : Int := (civilFromDays (Day t)).2.1 - 1

/-- The method `Date.prototype.getDate`: day of the month. -/
def getDate (t : Int) : Int := (civilFromDays (Day t)).2.2

/-- The method `Date.prototype.getDay`: 0 Sunday .. 6 Saturday
(ECMAScript `WeekDay(t) = (Day(t) + 4) mod 7`). -/
def getDay (t : Int) : Int := (Day t + 4) % 7

/-- ECMAScript `MakeDay(year, month, date)`, `month` counted from 0 and
normalised into the year. -/
def MakeDay (year month date : Int) : Int :=
  daysFromCivil (year + month / 12) (month % 12 + 1) 1 + date - 1

/-- The method `Date.prototype.setDate(dt)`: same year, month and time of day,
day of the month replaced by `dt` (which may lie outside the month). -/
def setDate (t : Int) (dt : Int) : Int :=
  MakeDay (getFullYear t) (getMonth t) dt * secPerDay + TimeWithinDay t

/-! ## Strings: template literals, `padStart`, date parsing -/

/-- The call `String(n).padStart(2, '0')`. -/
def padStart2 (s : String) : String :=
  String.mk (List.replicate (2 - s.data.length) '0' ++ s.data)

/-- The template `${yyyy}-${mm}-${dd}` the script builds from `getFullYear()`,
`getMonth() + 1` and `getDate()`, both of the latter padded to two characters.
On an `Invalid Date` every getter yields `NaN`. -/
def formatDate : Option Int → String
  | none => "NaN-NaN-NaN"
  | some t =>
    toString (getFullYear t) ++ "-" ++ padStart2 (toString (getMonth t + 1)) ++ "-" ++
      padStart2 (toString (getDate t))

/-- Value of a decimal digit character. -/
def digitVal (c : Char) : Option Nat :=
  if 48 ≤ c.toNat ∧ c.toNat ≤ 57 then some (c.toNat - 48) else none

/-- The date part `YYYY-MM-DD` of an ISO date-time string: four-digit year,
month 1..12, day 1..31 (the runtime lets `MakeDay` roll a day beyond the month
over).  Any other text is not a date. -/
def parseISODate (s : String) : Option (Int × Int × Int) :=
  match s.data with
  | [y1, y2, y3, y4, '-', m1, m2, '-', d1, d2] =>
    match digitVal y1, digitVal y2, digitVal y3, digitVal y4,
          digitVal m1, digitVal m2, digitVal d1, digitVal d2 with
    | some a, some b, some c, some d, some e, some f, some g, some h =>
      let m := 10 * e + f
      let dd := 10 * g + h
      if 1 ≤ m ∧ m ≤ 12 ∧ 1 ≤ dd ∧ dd ≤ 31 then
        some (((1000 * a + 100 * b + 10 * c + d : Nat) : Int), (m : Int), (dd : Int))
      else none
    | _, _, _, _, _, _, _, _ => none
  | _ => none

/-- Local clock reading denoted by `iso + 'THH:00:00'` (a date-time without
offset is local time): `secs` is the time of day in seconds. -/
def parseLocal (iso : String) (secs : Int) : Option Int :=
  match parseISODate iso with
  | none => none
  | some (y, m, d) => some (MakeDay y (m - 1) d * secPerDay + secs)

/-! ## The host: process time zone and time-zone database -/

/-- What the runtime contributes: the process's own zone and the zone
database behind `toLocaleString`. -/
structure Host where
  /-- The UTC instant of a local clock reading in the process zone. -/
  localToUTC : Int → Int
  /-- The UTC offset in seconds of a named zone at a UTC instant, or `none`
  for a name the runtime does not know. -/
  zoneOffset : String → Option (Int → Int)

/-- Exceptions thrown by the synchronous part of the script. -/
inductive JsError where
  /-- `RangeError: Invalid time zone specified`. -/
  | rangeError (tz : String)
  deriving DecidableEq, Repr

/-- The expression `new Date(x.toLocaleString('en-US', { timeZone: tz }))` for
a date `x` given as UTC instant: the clock reading of zone `tz` at that
instant.  `Invalid Date` prints as such before the zone is looked at; a zone
the runtime does not know throws. -/
def inZone (h : Host) (tz : String) : Option Int → Except JsError (Option Int)
  | none => .ok none
  | some utc =>
    match h.zoneOffset tz with
    | none => .error (.rangeError tz)
    | some off => .ok (some (utc + off utc))

/-- The expression `new Date(new Date(iso + 'THH:00:00').toLocaleString('en-US',
{ timeZone: tz }))`. -/
def localISOInZone (h : Host) (iso : String) (secs : Int) (tz : String) :
    Except JsError (Option Int) :=
  inZone h tz ((parseLocal iso secs).map h.localToUTC)

/-! ## The three date helpers of the script -/

/-- The function `getDateInTZAddDays(tz, addDays)`; `now` is the UTC instant
of the call. -/
def getDateInTZAddDays (h : Host) (now : Int) (tz : String) (addDays : Int) :
    Except JsError String := do
  let d ← inZone h tz (some now)
  pure (formatDate (d.map fun t => setDate t (getDate t + addDays)))

/-- The function `isWeekendISO(isoDate, tz)`. -/
def isWeekendISO (h : Host) (isoDate : String) (tz : String) : Except JsError Bool := do
  let d ← localISOInZone h isoDate 0 tz
  match d with
  | none => pure false
  | some t => pure (getDay t == 0 || getDay t == 6)

/-- The function `adjustForWeekend(reminderISO, tz)`. -/
def adjustForWeekend (h : Host) (reminderISO : String) (tz : String) :
    Except JsError String := do
  let d ← localISOInZone h reminderISO (9 * 3600) tz
  match d with
  | none => pure (formatDate none)
  | some t =>
    if getDay t = 6 then pure (formatDate (some (setDate t (getDate t - 1))))
    else if getDay t = 0 then pure (formatDate (some (setDate t (getDate t - 2))))
    else pure (formatDate (some t))

/-! ## Records read from the store -/

/-- One entry of `parent.children`: the fields the script reads. -/
structure Child where
  name : Option String
  nextDueVaccine : Option String
  nextDueDate : Option String
  lastNotifiedDate : Option String
  deriving DecidableEq, Repr

/-- One entry of `Parents`: the fields the script reads.  `fcmTokens` is
`Object.keys(parent.fcmTokens || {})` and `children` is
`Object.entries(parent.children || {})`; a child entry that is `null` is
`none`. -/
structure Parent where
  muteReminders : Bool
  timezone : Option String
  fcmTokens : List String
  children : List (String × Option Child)
  deriving DecidableEq, Repr

/-- JavaScript truthiness of an optional string field: absent and `''` are
falsy. -/
def truthy : Option String → Bool
  | none => false
  | some s => s != ""

/-- The reference zone `defaultTZ`. -/
def defaultTZ : String := "Asia/Kolkata"

/-- The expression `parent.timezone || defaultTZ`. -/
def timezoneOf (parent : Parent) : String :=
  match parent.timezone with
  | none => defaultTZ
  | some tz => if tz != "" then tz else defaultTZ

/-- The candidate list `dueChildren` built by the loop over
`Object.entries(children)`. -/
def dueChildren (targetDueDate : String) (children : List (String × Option Child)) :
    List (String × Child) :=
  children.filterMap fun entry =>
    match entry.2 with
    | none => none
    | some child =>
      if !truthy child.nextDueDate then none
      else if child.nextDueDate = some targetDueDate then
        if truthy child.lastNotifiedDate && child.lastNotifiedDate = some targetDueDate then none
        else some (entry.1, child)
      else none

/-- One fragment of the message body: `${vac} (${childName})`. -/
def bodyPart (child : Child) : String :=
  let childName := if truthy child.name then child.name.getD "" else "your child"
  let vac := if truthy child.nextDueVaccine then child.nextDueVaccine.getD "" else "vaccine"
  vac ++ " (" ++ childName ++ ")"

/-- The message body. -/
def bodyOf (dc : List (String × Child)) : String :=
  "Reminder: " ++ ", ".intercalate (dc.map fun x => bodyPart x.2) ++
    " are due tomorrow. Please enquire or book an appointment."

/-- The multicast message handed to the transport. -/
structure Message where
  title : String
  body : String
  tokens : List String
  dataType : String
  dataDate : String
  deriving DecidableEq, Repr

/-- What one pass of the `forEach` callback hands on to the transport: the
recipient, its candidates and the message. -/
structure DispatchUnit where
  parentId : String
  dueChildren : List (String × Child)
  message : Message
  deriving DecidableEq, Repr

/-- The send date of lines 85 to 91: the due date at 09:00 read in the
parent's zone, one day earlier, and moved off the weekend when
`isWeekendISO` says so. -/
def finalSendDate (h : Host) (due : String) (tz : String) : Except JsError String := do
  let dueDateObj ← localISOInZone h due (9 * 3600) tz
  let sendDate := formatDate (dueDateObj.map fun t => setDate t (getDate t - 1))
  if (← isWeekendISO h sendDate tz) then adjustForWeekend h sendDate tz else pure sendDate

/-- Today in zone `tz`: `todayISO`. -/
def todayISO (h : Host) (now : Int) (tz : String) : Except JsError String := do
  let today ← inZone h tz (some now)
  pure (formatDate today)

/-- The body of the `forEach` callback up to the transport call: `none` when
the callback returns early, a unit when it goes on to `sendMulticast`, an
error when it throws. -/
def prepare (h : Host) (now : Int) (targetDueDate : String) (parentId : String)
    (parent : Parent) : Except JsError (Option DispatchUnit) :=
  if parent.muteReminders then pure none
  else
    let tz := timezoneOf parent
    let tokens := parent.fcmTokens
    if tokens.length = 0 then pure none
    else
      let dc := dueChildren targetDueDate parent.children
      match dc with
      | [] => pure none
      | first :: _ => do
        let body := bodyOf dc
        let due := first.2.nextDueDate.getD "undefined"
        let send ← finalSendDate h due tz
        let today ← todayISO h now tz
        if send ≠ today then pure none
        else pure (some
          { parentId := parentId, dueChildren := dc,
            message := { title := "Vaccine reminder", body := body, tokens := tokens,
                         dataType := "vaccine_reminder", dataDate := targetDueDate } })

/-! ## Transport, store writes and the run -/

/-- Outcome of a promise: fulfilled with a value, or rejected with an error
given by its string form `String(err)`. -/
inductive Settled (α : Type) where
  | resolved (a : α)
  | rejected (err : String)
  deriving DecidableEq, Repr

/-- Result of `sendMulticast`. -/
structure BatchResponse where
  successCount : Nat
  failureCount : Nat
  deriving DecidableEq, Repr

/-- A write issued to the store. -/
inductive Write where
  /-- The call `db.ref().update(updates)`, paths in insertion order. -/
  | update (fields : List (String × String))
  /-- The call `auditRef.set({ sentAt, body, result })`; `sentAt` is the
  server's timestamp. -/
  | audit (path : String) (body : String) (successCount failureCount : Nat)
  /-- The call `failRef.set({ error, ts })`. -/
  | failure (path : String) (error : String) (ts : Int)
  deriving DecidableEq, Repr

/-- Outcome of one `auditRef.set(...)`.  The promise gets a handler only when
`Promise.all(auditPromises)` is reached, after `await db.ref().update(updates)`
has returned. -/
inductive AuditOutcome where
  | resolved
  /-- Rejected while `await db.ref().update(updates)` is still pending. -/
  | rejectedEarly (err : String)
  /-- Rejected after the update has settled, the process still running. -/
  | rejectedLate (err : String)
  deriving DecidableEq, Repr

/-- Outcome of one `failRef.set(...)`, a promise that never gets a handler. -/
inductive FailureOutcome where
  /-- Fulfilled, or not rejected before the process has ended. -/
  | unnoticed
  /-- Rejected while the process is still running. -/
  | rejectedWhileRunning (err : String)
  deriving DecidableEq, Repr

/-- Everything outside the script that a run depends on. -/
structure World where
  host : Host
  /-- The clock reading of `getDateInTZAddDays` at line 19, UTC seconds. -/
  now : Int
  /-- The clock reading `new Date()` at line 94 in the callback of the
  recipient with this key, UTC seconds. -/
  clock : String → Int
  /-- The value of `Date.now()`, in milliseconds, when the failure record at
  this path is built. -/
  dateNow : String → Int
  /-- Outcome of `db.ref('Parents').once('value')`: `none` when the snapshot
  does not exist. -/
  parents : Settled (Option (List (String × Parent)))
  /-- Outcome of `admin.messaging().sendMulticast(message)`. -/
  sendMulticast : Message → Settled BatchResponse
  /-- Outcome of `db.ref().update(updates)`. -/
  update : List (String × String) → Settled Unit
  /-- Outcome of `auditRef.set(...)` at a path. -/
  auditSet : String → AuditOutcome
  /-- Outcome of `failRef.set(...)` at a path. -/
  failureSet : String → FailureOutcome
  /-- Whether a write had been issued when an unhandled rejection ended the
  process; read only in that case. -/
  issuedBeforeEnd : Write → Bool

/-- Store path of a child's `lastNotifiedDate`. -/
def lastNotifiedPath (parentId childId : String) : String :=
  "Parents/" ++ parentId ++ "/children/" ++ childId ++ "/lastNotifiedDate"

/-- Store path of a success audit record. -/
def auditPath (parentId childId targetDueDate : String) : String :=
  "notifications/" ++ parentId ++ "/" ++ childId ++ "/" ++ targetDueDate

/-- Store path of a failure record. -/
def failurePath (parentId childId targetDueDate : String) : String :=
  "notifications_failures/" ++ parentId ++ "/" ++ childId ++ "/" ++ targetDueDate

/-- The object `updates` staged by the `then` handler. -/
def stagedUpdates (targetDueDate : String) (u : DispatchUnit) : List (String × String) :=
  u.dueChildren.map fun dc => (lastNotifiedPath u.parentId dc.1, targetDueDate)

/-- The audit writes issued by the `then` handler. -/
def auditWrites (targetDueDate : String) (u : DispatchUnit) (resp : BatchResponse) : List Write :=
  u.dueChildren.map fun dc =>
    Write.audit (auditPath u.parentId dc.1 targetDueDate) u.message.body
      resp.successCount resp.failureCount

/-- The writes of the `catch` handler, one per candidate, each with its own
`Date.now()`. -/
def failureWrites (dateNow : String → Int) (targetDueDate : String) (u : DispatchUnit)
    (err : String) : List Write :=
  u.dueChildren.map fun dc =>
    Write.failure (failurePath u.parentId dc.1 targetDueDate) err
      (dateNow (failurePath u.parentId dc.1 targetDueDate))

/-- Some audit write is rejected while the update is pending, when no handler
is attached to it. -/
def earlyAuditRejection (w : World) (targetDueDate : String) (u : DispatchUnit) : Bool :=
  u.dueChildren.any fun dc =>
    match w.auditSet (auditPath u.parentId dc.1 targetDueDate) with
    | .rejectedEarly _ => true
    | _ => false

/-- The rejection `Promise.all(auditPromises)` rejects with: that of an audit
write rejected once the update has settled, the first in candidate order
standing for the first to arrive. -/
def lateAuditError (w : World) (targetDueDate : String) (u : DispatchUnit) : Option String :=
  u.dueChildren.findSome? fun dc =>
    match w.auditSet (auditPath u.parentId dc.1 targetDueDate) with
    | .rejectedLate err => some err
    | _ => none

/-- Some failure write of the unit is rejected while the process is running. -/
def failureRejected (w : World) (targetDueDate : String) (u : DispatchUnit) : Bool :=
  u.dueChildren.any fun dc =>
    match w.failureSet (failurePath u.parentId dc.1 targetDueDate) with
    | .rejectedWhileRunning _ => true
    | .unnoticed => false

/-- The promise chain of one unit, `sendMulticast(message).then(...).catch(...)`:
the store writes it issues.  The `then` handler issues the audit writes, then
the update, and awaits the update before it awaits the audit writes; an audit
rejection that arrives during the first await finds no handler and ends the
process there.  A rejection from the transport, from the update or, after it,
from `Promise.all` runs the `catch` handler. -/
def settle (w : World) (targetDueDate : String) (u : DispatchUnit) : List Write :=
  match w.sendMulticast u.message with
  | .rejected err => failureWrites w.dateNow targetDueDate u err
  | .resolved resp =>
    let issued := auditWrites targetDueDate u resp ++ [Write.update (stagedUpdates targetDueDate u)]
    if earlyAuditRejection w targetDueDate u then issued
    else
      match w.update (stagedUpdates targetDueDate u) with
      | .rejected err => issued ++ failureWrites w.dateNow targetDueDate u err
      | .resolved _ =>
        match lateAuditError w targetDueDate u with
        | some err => issued ++ failureWrites w.dateNow targetDueDate u err
        | none => issued

/-- The promise chain of the unit leaves a rejection without a handler: an
audit write rejected before `Promise.all` is reached (or at any time when the
update is rejected and `Promise.all` is never reached), or a rejected failure
write.  The runtime ends the process with status 1 on it. -/
def unhandledRejection (w : World) (targetDueDate : String) (u : DispatchUnit) : Bool :=
  match w.sendMulticast u.message with
  | .rejected _ => failureRejected w targetDueDate u
  | .resolved _ =>
    if earlyAuditRejection w targetDueDate u then true
    else
      match w.update (stagedUpdates targetDueDate u) with
      | .rejected _ =>
        (lateAuditError w targetDueDate u).isSome || failureRejected w targetDueDate u
      | .resolved _ =>
        match lateAuditError w targetDueDate u with
        | some _ => failureRejected w targetDueDate u
        | none => false

/-- The loop `parentsSnap.forEach(...)`: the units whose transport call was
made, and the exception that cut the loop short, if any.  `clock` gives the
clock reading of each pass. -/
def fanOut (h : Host) (clock : String → Int) (targetDueDate : String) :
    List (String × Parent) → List DispatchUnit × Option JsError
  | [] => ([], none)
  | entry :: rest =>
    match prepare h (clock entry.1) targetDueDate entry.1 entry.2 with
    | .error e => ([], some e)
    | .ok none => fanOut h clock targetDueDate rest
    | .ok (some u) =>
      ((u :: (fanOut h clock targetDueDate rest).1), (fanOut h clock targetDueDate rest).2)

/-- How `main` ends: `process.exit(code)` (also the runtime's exit on an
unhandled rejection), or a plain `return`. -/
inductive RunEnd where
  | exit (code : Nat)
  | returned
  deriving DecidableEq, Repr

/-- Exit status of the process: a `main` that returns without calling
`process.exit` leaves the default status 0. -/
def RunEnd.status : RunEnd → Nat
  | .exit code => code
  | .returned => 0

/-- What a run did. -/
structure RunResult where
  ending : RunEnd
  /-- The units for which `sendMulticast` was called, in order. -/
  dispatched : List DispatchUnit
  /-- The store writes issued by the promise handlers. -/
  writes : List Write
  deriving DecidableEq, Repr

/-- The function `main`.  An exception in the synchronous part reaches the
outer `catch`, which exits with status 1 before any promise handler has run.
An unhandled rejection in a unit's promise chain ends the process with status
1 before `process.exit(0)` is reached; the writes made are those the handlers
had issued by then. -/
def main (w : World) : RunResult :=
  match getDateInTZAddDays w.host w.now defaultTZ 1 with
  | .error _ => { ending := .exit 1, dispatched := [], writes := [] }
  | .ok targetDueDate =>
    match w.parents with
    | .rejected _ => { ending := .exit 1, dispatched := [], writes := [] }
    | .resolved none => { ending := .returned, dispatched := [], writes := [] }
    | .resolved (some ps) =>
      match fanOut w.host w.clock targetDueDate ps with
      | (units, some _) => { ending := .exit 1, dispatched := units, writes := [] }
      | (units, none) =>
        if units.any (unhandledRejection w targetDueDate) then
          { ending := .exit 1, dispatched := units,
            writes := (units.flatMap (settle w targetDueDate)).filter w.issuedBeforeEnd }
        else
          { ending := .exit 0, dispatched := units,
            writes := units.flatMap (settle w targetDueDate) }

/-- Modelled from the spec: the store's `updateFields(map of path -> value)`
as it acts on the child stored under `path`: each field whose path is this
child's `lastNotifiedDate` path is written in turn. -/
def updateChild (fields : List (String × String)) (path : String) (c : Child) : Child :=
  fields.foldl (fun c field =>
    if field.1 = path then { c with lastNotifiedDate := some field.2 } else c) c

/-- Modelled from the spec: the store's `updateFields(map of path -> value)`
as it acts on one recipient record.  Only `lastNotifiedDate` paths are ever
staged by the script. -/
def applyUpdate (fields : List (String × String)) (parentId : String) (parent : Parent) :
    Parent :=
  { parent with children := parent.children.map fun entry =>
      (entry.1, entry.2.map (updateChild fields (lastNotifiedPath parentId entry.1))) }

/-- The recipient record after a list of writes: audit and failure records
live outside `Parents`, so only `update` writes change it. -/
def applyWrites (writes : List Write) (parentId : String) (parent : Parent) : Parent :=
  writes.foldl (fun p wr =>
    match wr with
    | .update fields => applyUpdate fields parentId p
    | _ => p) parent

/-! ## Vocabulary of the statements -/

/-- Weekday of a day number, 0 Sunday .. 6 Saturday. -/
def weekday (n : Int) : Int := (n + 4) % 7

/-- Gregorian leap year. -/
def isLeapYear (y : Int) : Prop := y % 4 = 0 ∧ (y % 100 ≠ 0 ∨ y % 400 = 0)

instance (y : Int) : Decidable (isLeapYear y) := by
  unfold isLeapYear; infer_instance

/-- Number of days of month `m` (1..12) of year `y`. -/
def daysInMonth (y m : Int) : Int :=
  if m = 2 then (if isLeapYear y then 29 else 28)
  else if m = 4 ∨ m = 6 ∨ m = 9 ∨ m = 11 then 30 else 31

/-- The triple `y-m-d` is a date of the calendar. -/
def ValidDate (y m d : Int) : Prop := 1 ≤ m ∧ m ≤ 12 ∧ 1 ≤ d ∧ d ≤ daysInMonth y m

instance (y m d : Int) : Decidable (ValidDate y m d) := by
  unfold ValidDate; infer_instance

/-- The text `YYYY-MM-DD` of the date `y-m-d`, month and day padded to two
characters. -/
def isoText (y m d : Int) : String :=
  toString y ++ "-" ++ padStart2 (toString m) ++ "-" ++ padStart2 (toString d)

/-- The text `YYYY-MM-DD` of the calendar date with day number `n`, as the
script formats it. -/
def isoOfDay (n : Int) : String := formatDate (some (n * secPerDay))

/-- The calendar date with day number `n` has a four-digit year. -/
def FourDigitYear (n : Int) : Prop :=
  1000 ≤ (civilFromDays n).1 ∧ (civilFromDays n).1 ≤ 9999

instance (n : Int) : Decidable (FourDigitYear n) := by
  unfold FourDigitYear; infer_instance

/-- Calendar day shown by the clock of zone `tz` at the instant at which the
process clock reads `secs` seconds into day `n`; `none` for an unknown zone. -/
def zoneDay (h : Host) (tz : String) (n secs : Int) : Option Int :=
  match h.zoneOffset tz with
  | none => none
  | some off =>
    some (Day (h.localToUTC (n * secPerDay + secs) + off (h.localToUTC (n * secPerDay + secs))))

/-- On day `n` the script's date round trip is faithful for zone `tz`: the
year has four digits, and at 00:00 and at 09:00 on the process clock the
clock of `tz` shows the same calendar day `n`. -/
def DateStable (h : Host) (tz : String) (n : Int) : Prop :=
  FourDigitYear n ∧ zoneDay h tz n 0 = some n ∧ zoneDay h tz n (9 * 3600) = some n

instance (h : Host) (tz : String) (n : Int) : Decidable (DateStable h tz n) := by
  unfold DateStable; infer_instance

/-- The day the reminder for due day `n` is to go out: the day before, moved
back to Friday when that day is a Saturday or a Sunday. -/
def sendDay (n : Int) : Int :=
  if weekday (n - 1) = 6 then n - 2 else if weekday (n - 1) = 0 then n - 3 else n - 1

/-- A process running in UTC, with a zone database holding three zones at
their standard-time offsets. -/
def hostUTC : Host where
  localToUTC := fun t => t
  zoneOffset := fun tz =>
    if tz = "Asia/Kolkata" then some (fun _ => 19800)
    else if tz = "America/New_York" then some (fun _ => -18000)
    else if tz = "Pacific/Honolulu" then some (fun _ => -36000)
    else none

/-- A process running in Asia/Tokyo (UTC+9), same zone database. -/
def hostTokyo : Host where
  localToUTC := fun t => t - 32400
  zoneOffset := hostUTC.zoneOffset

/-- The send date computed for due date `targetDueDate` is today's date in
zone `tz`. -/
def sendsToday (h : Host) (now : Int) (targetDueDate tz : String) : Bool :=
  match finalSendDate h targetDueDate tz, todayISO h now tz with
  | .ok send, .ok today => send == today
  | _, _ => false

/-- The eligibility rule in the spec's words: not muted, at least one delivery
address, at least one candidate event, and the send date equal to today's date
in the recipient's zone. -/
def Eligible (h : Host) (now : Int) (targetDueDate : String) (parent : Parent) : Prop :=
  parent.muteReminders = false ∧ parent.fcmTokens ≠ [] ∧
    dueChildren targetDueDate parent.children ≠ [] ∧
    sendsToday h now targetDueDate (timezoneOf parent) = true

instance (h : Host) (now : Int) (targetDueDate : String) (parent : Parent) :
    Decidable (Eligible h now targetDueDate parent) := by
  unfold Eligible; infer_instance

/-- The unit of an eligible recipient: one message to all of its tokens,
naming all of its candidates. -/
def unitOf (targetDueDate parentId : String) (parent : Parent) : DispatchUnit :=
  { parentId := parentId, dueChildren := dueChildren targetDueDate parent.children,
    message := { title := "Vaccine reminder",
                 body := bodyOf (dueChildren targetDueDate parent.children),
                 tokens := parent.fcmTokens,
                 dataType := "vaccine_reminder", dataDate := targetDueDate } }

/-- A write is a store update. -/
def Write.isUpdate : Write → Bool
  | .update _ => true
  | _ => false

/-- A write is a success audit record. -/
def Write.isAudit : Write → Bool
  | .audit _ _ _ _ => true
  | _ => false

/-- A write is a failure record. -/
def Write.isFailure : Write → Bool
  | .failure _ _ _ => true
  | _ => false

/-- A recipient with one token and one event. -/
def parentWith (tz : Option String) (due : String) : Parent :=
  { muteReminders := false, timezone := tz, fcmTokens := ["token-1"],
    children := [("c1", some { name := some "Asha", nextDueVaccine := some "MMR",
                               nextDueDate := some due, lastNotifiedDate := none })] }

/-- A world whose transport and store always succeed and whose clock stands
at `now` throughout the run. -/
def worldOf (h : Host) (now : Int) (ps : List (String × Parent)) : World :=
  { host := h, now := now, clock := fun _ => now, dateNow := fun _ => now * 1000,
    parents := .resolved (some ps),
    sendMulticast := fun m => .resolved { successCount := m.tokens.length, failureCount := 0 },
    update := fun _ => .resolved (), auditSet := fun _ => .resolved,
    failureSet := fun _ => .unnoticed, issuedBeforeEnd := fun _ => true }

/-- The callback throws for this recipient: it is not muted, has a token and
a candidate, so that it reaches the date computation at line 87, and the
runtime does not know its timezone name. -/
def Throws (h : Host) (targetDueDate : String) (parent : Parent) : Prop :=
  parent.muteReminders = false ∧ parent.fcmTokens ≠ [] ∧
    dueChildren targetDueDate parent.children ≠ [] ∧
    (h.zoneOffset (timezoneOf parent)).isSome = false

instance (h : Host) (targetDueDate : String) (parent : Parent) :
    Decidable (Throws h targetDueDate parent) := by
  unfold Throws; infer_instance

/-- Tuesday 2025-01-07, 03:00 UTC, which is 08:30 in Asia/Kolkata. -/
def tuesdayMorning : Int := 20095 * 86400 + 10800

/-- Saturday 2025-01-04, 03:00 UTC, which is 08:30 in Asia/Kolkata. -/
def saturdayMorning : Int := 20092 * 86400 + 10800

/-! ## Calendar lemmas -/

theorem marchYearDay_doy (z : Int) : 0 ≤ (marchYearDay z).2 ∧ (marchYearDay z).2 ≤ 365 := by
  simp only [marchYearDay]
  split <;> split <;> omega

theorem marchYearDay_spec (z : Int) :
    daysToMarchYear (marchYearDay z).1 + (marchYearDay z).2 = z := by
  simp only [marchYearDay, daysToMarchYear]
  generalize hera : (z + 719468) / 146097 = era
  generalize hdoe : (z + 719468) % 146097 = doe
  have hz : z = era * 146097 + doe - 719468 := by omega
  have hdoe0 : 0 ≤ doe ∧ doe < 146097 := by omega
  clear hera hdoe
  subst hz
  generalize hc : (if doe / 36524 < 3 then doe / 36524 else 3) = c
  have hc0 : 0 ≤ c ∧ c ≤ 3 := by split at hc <;> omega
  have hdoc : 0 ≤ doe - c * 36524 ∧ doe - c * 36524 ≤ 36524 := by split at hc <;> omega
  have hdoc3 : c < 3 → doe - c * 36524 < 36524 := by split at hc <;> omega
  clear hc
  generalize hdoc' : doe - c * 36524 = doc at *
  have hd : doe = doc + c * 36524 := by omega
  subst hd
  clear hdoc'
  generalize hq : doc / 1461 = q
  generalize hdoq : doc % 1461 = doq
  have hq0 : 0 ≤ q ∧ q ≤ 24 := by omega
  have hdoq0 : 0 ≤ doq ∧ doq ≤ 1460 := by omega
  have hd2 : doc = q * 1461 + doq := by omega
  subst hd2
  clear hq hdoq
  generalize hyq : (if doq / 365 < 3 then doq / 365 else 3) = yq
  have hyq0 : 0 ≤ yq ∧ yq ≤ 3 := by split at hyq <;> omega
  have hdoy : 0 ≤ doq - yq * 365 ∧ doq - yq * 365 ≤ 365 := by split at hyq <;> omega
  have e1 : (era * 400 + c * 100 + q * 4 + yq) / 400 = era := by omega
  have e2 : (era * 400 + c * 100 + q * 4 + yq) % 400 = c * 100 + q * 4 + yq := by omega
  rw [e1, e2]
  have e3 : (c * 100 + q * 4 + yq) / 4 = c * 25 + q := by omega
  have e4 : (c * 100 + q * 4 + yq) / 100 = c := by omega
  rw [e3, e4]
  omega

theorem civil_month_range (z : Int) :
    1 ≤ (civilFromDays z).2.1 ∧ (civilFromDays z).2.1 ≤ 12 := by
  have h := marchYearDay_doy z
  simp only [civilFromDays]
  split <;> omega

theorem civil_day_range (z : Int) :
    1 ≤ (civilFromDays z).2.2 ∧ (civilFromDays z).2.2 ≤ 31 := by
  have h := marchYearDay_doy z
  simp only [civilFromDays]
  omega

theorem daysFromCivil_civilFromDays (z : Int) :
    daysFromCivil (civilFromDays z).1 (civilFromDays z).2.1 (civilFromDays z).2.2 = z := by
  have h := marchYearDay_doy z
  have h2 := marchYearDay_spec z
  simp only [civilFromDays, daysFromCivil]
  generalize (marchYearDay z).1 = y1 at *
  generalize (marchYearDay z).2 = doy at *
  by_cases hm : (5 * doy + 2) / 153 < 10
  · have : ¬ ((5 * doy + 2) / 153 + 3 ≤ 2) := by omega
    simp only [hm, this, if_true, if_false]
    omega
  · have : ((5 * doy + 2) / 153 - 9 ≤ 2) := by omega
    simp only [hm, this, if_true, if_false, add_sub_cancel_right, sub_add_cancel]
    omega

theorem marchYearDay_of (y1 doy : Int) (h0 : 0 ≤ doy) (h1 : doy ≤ 365)
    (h2 : doy = 365 → isLeapYear (y1 + 1)) :
    marchYearDay (daysToMarchYear y1 + doy) = (y1, doy) := by
  simp only [marchYearDay, daysToMarchYear, isLeapYear] at *
  generalize he : y1 / 400 = e at *
  generalize hr : y1 % 400 = r at *
  have hy : y1 = 400 * e + r := by omega
  have hr0 : 0 ≤ r ∧ r < 400 := by omega
  subst hy
  clear he hr
  generalize hc : r / 100 = c at *
  generalize hr' : r % 100 = r' at *
  have hrr : r = 100 * c + r' := by omega
  have hc0 : 0 ≤ c ∧ c ≤ 3 := by omega
  have hr'0 : 0 ≤ r' ∧ r' < 100 := by omega
  subst hrr
  clear hc hr' hr0
  generalize hq : r' / 4 = q at *
  generalize hs : r' % 4 = s at *
  have hrq : r' = 4 * q + s := by omega
  have hq0 : 0 ≤ q ∧ q ≤ 24 := by omega
  have hs0 : 0 ≤ s ∧ s ≤ 3 := by omega
  subst hrq
  clear hq hs hr'0
  have e1 : (100 * c + (4 * q + s)) / 4 = 25 * c + q := by omega
  have hleap : doy = 365 → s = 3 ∧ (q < 24 ∨ c = 3) := by
    intro hd
    have := h2 hd
    omega
  have e2 : (e * 146097 + (100 * c + (4 * q + s)) * 365 + (25 * c + q) - c - 719468 + doy + 719468)
      = e * 146097 + (36524 * c + 1461 * q + 365 * s + doy) := by ring
  rw [e1, e2]
  have hb : 0 ≤ 36524 * c + 1461 * q + 365 * s + doy ∧
      36524 * c + 1461 * q + 365 * s + doy < 146097 := by omega
  have e3 : (e * 146097 + (36524 * c + 1461 * q + 365 * s + doy)) / 146097 = e := by omega
  have e4 : (e * 146097 + (36524 * c + 1461 * q + 365 * s + doy)) % 146097 =
      36524 * c + 1461 * q + 365 * s + doy := by omega
  rw [e3, e4]
  have e5 : (if (36524 * c + 1461 * q + 365 * s + doy) / 36524 < 3 then
      (36524 * c + 1461 * q + 365 * s + doy) / 36524 else 3) = c := by
    split <;> omega
  rw [e5]
  have e6 : 36524 * c + 1461 * q + 365 * s + doy - c * 36524 = 1461 * q + (365 * s + doy) := by
    ring
  rw [e6]
  have e7 : (1461 * q + (365 * s + doy)) / 1461 = q := by omega
  have e8 : (1461 * q + (365 * s + doy)) % 1461 = 365 * s + doy := by omega
  rw [e7, e8]
  have e9 : (if (365 * s + doy) / 365 < 3 then (365 * s + doy) / 365 else 3) = s := by
    split <;> omega
  rw [e9]
  refine Prod.ext ?_ ?_ <;> simp only <;> omega

theorem civil_of_march (y1 doy mp : Int) (h0 : 0 ≤ doy) (h1 : doy ≤ 365)
    (h2 : doy = 365 → isLeapYear (y1 + 1)) (hmp : (5 * doy + 2) / 153 = mp) :
    civilFromDays (daysToMarchYear y1 + doy) =
      (if (if mp < 10 then mp + 3 else mp - 9) ≤ 2 then y1 + 1 else y1,
        if mp < 10 then mp + 3 else mp - 9, doy - (153 * mp + 2) / 5 + 1) := by
  simp only [civilFromDays, marchYearDay_of y1 doy h0 h1 h2, hmp]

theorem civilFromDays_daysFromCivil (y m d : Int) (hv : ValidDate y m d) :
    civilFromDays (daysFromCivil y m d) = (y, m, d) := by
  obtain ⟨hm1, hm2, hd1, hd2⟩ := hv
  have hl : d ≤ 29 ∨ m ≠ 2 := by
    unfold daysInMonth at hd2
    by_cases h : m = 2
    · left; rw [if_pos h] at hd2; split at hd2 <;> omega
    · right; exact h
  have hleap : m = 2 → d = 29 → isLeapYear y := by
    intro h hd
    unfold daysInMonth at hd2
    rw [if_pos h] at hd2
    by_contra hn
    rw [if_neg hn] at hd2
    omega
  have h30 : (m = 4 ∨ m = 6 ∨ m = 9 ∨ m = 11) → d ≤ 30 := by
    intro h
    unfold daysInMonth at hd2
    rw [if_neg (by omega), if_pos h] at hd2
    exact hd2
  have h31 : d ≤ 31 := by
    unfold daysInMonth at hd2
    split at hd2
    · split at hd2 <;> omega
    · split at hd2 <;> omega
  by_cases hm : m ≤ 2
  · have key : daysFromCivil y m d =
        daysToMarchYear (y - 1) + ((153 * (m + 9) + 2) / 5 + d - 1) := by
      simp only [daysFromCivil, if_pos hm]; omega
    have hmp : (5 * ((153 * (m + 9) + 2) / 5 + d - 1) + 2) / 153 = m + 9 := by
      have : m = 1 ∨ m = 2 := by omega
      rcases this with h | h <;> subst h <;> omega
    rw [key, civil_of_march (y - 1) _ (m + 9) (by omega) (by
        have : m = 1 ∨ m = 2 := by omega
        rcases this with h | h <;> subst h <;> omega) (by
        intro h365
        have : m = 1 ∨ m = 2 := by omega
        rcases this with h | h
        · subst h; omega
        · subst h
          have : y - 1 + 1 = y := by omega
          rw [this]
          exact hleap rfl (by omega)) hmp]
    have c1 : ¬ (m + 9 < 10) := by omega
    have c2 : m + 9 - 9 ≤ 2 := by omega
    rw [if_neg c1, if_pos c2]
    refine Prod.ext ?_ (Prod.ext ?_ ?_) <;> simp only <;> omega
  · have key : daysFromCivil y m d =
        daysToMarchYear y + ((153 * (m - 3) + 2) / 5 + d - 1) := by
      simp only [daysFromCivil, if_neg hm]; omega
    have hcases : m = 3 ∨ m = 4 ∨ m = 5 ∨ m = 6 ∨ m = 7 ∨ m = 8 ∨ m = 9 ∨
        m = 10 ∨ m = 11 ∨ m = 12 := by omega
    have hmp : (5 * ((153 * (m - 3) + 2) / 5 + d - 1) + 2) / 153 = m - 3 := by
      rcases hcases with h | h | h | h | h | h | h | h | h | h <;> subst h <;> omega
    have hb : (153 * (m - 3) + 2) / 5 + d - 1 ≤ 364 := by
      rcases hcases with h | h | h | h | h | h | h | h | h | h <;> subst h <;> omega
    rw [key, civil_of_march y _ (m - 3) (by omega) (by omega) (by omega) hmp]
    have c1 : m - 3 < 10 := by omega
    have c2 : ¬ (m - 3 + 3 ≤ 2) := by omega
    rw [if_pos c1, if_neg c2]
    refine Prod.ext ?_ (Prod.ext ?_ ?_) <;> simp only <;> omega

theorem daysFromCivil_add (y m d k : Int) :
    daysFromCivil y m (d + k) = daysFromCivil y m d + k := by
  simp only [daysFromCivil]; omega

/-- `MakeDay` of the fields of a clock reading, with any day of the month. -/
theorem MakeDay_fields (t dt : Int) :
    MakeDay (getFullYear t) (getMonth t) dt = Day t + (dt - getDate t) := by
  have hm := civil_month_range (Day t)
  have hr := daysFromCivil_civilFromDays (Day t)
  simp only [MakeDay, getFullYear, getMonth, getDate]
  generalize (civilFromDays (Day t)).1 = y at *
  generalize (civilFromDays (Day t)).2.1 = m at *
  generalize (civilFromDays (Day t)).2.2 = d at *
  have e1 : (m - 1) / 12 = 0 := by omega
  have e2 : (m - 1) % 12 + 1 = m := by omega
  rw [e1, e2, add_zero]
  have := daysFromCivil_add y m d (1 - d)
  have e3 : d + (1 - d) = 1 := by omega
  rw [e3] at this
  omega

theorem setDate_shift (t k : Int) : setDate t (getDate t + k) = t + k * secPerDay := by
  simp only [setDate, MakeDay_fields, Day, TimeWithinDay, secPerDay]
  omega

theorem Day_shift (t k : Int) : Day (t + k * secPerDay) = Day t + k := by
  simp only [Day, secPerDay]; omega


/-! ## String lemmas -/

theorem toDigitsCore_four (k fuel : Nat) (ds : List Char) (h0 : 1000 ≤ k) (h1 : k ≤ 9999) :
    Nat.toDigitsCore 10 (fuel + 4) k ds =
      Nat.digitChar (k / 1000) :: Nat.digitChar (k / 100 % 10) :: Nat.digitChar (k / 10 % 10) ::
        Nat.digitChar (k % 10) :: ds := by
  have a1 : k / 10 ≠ 0 := by omega
  have a2 : k / 10 / 10 ≠ 0 := by omega
  have a3 : k / 10 / 10 / 10 ≠ 0 := by omega
  have a4 : k / 10 / 10 / 10 / 10 = 0 := by omega
  have b1 : k / 10 / 10 / 10 % 10 = k / 1000 := by omega
  have b2 : k / 10 / 10 % 10 = k / 100 % 10 := by omega
  simp only [Nat.toDigitsCore, a1, a2, a3, a4, b1, b2, if_true, if_false]

theorem toString_year (y : Int) (h0 : 1000 ≤ y) (h1 : y ≤ 9999) :
    (toString y).data =
      [Nat.digitChar (y.toNat / 1000), Nat.digitChar (y.toNat / 100 % 10),
        Nat.digitChar (y.toNat / 10 % 10), Nat.digitChar (y.toNat % 10)] := by
  obtain ⟨k, rfl⟩ : ∃ k : Nat, y = (k : Int) := ⟨y.toNat, by omega⟩
  have hk0 : 1000 ≤ k := by omega
  have hk1 : k ≤ 9999 := by omega
  obtain ⟨f, hf⟩ : ∃ f, k + 1 = f + 4 := ⟨k - 3, by omega⟩
  show (Nat.repr k).data = _
  simp only [Nat.repr, Nat.toDigits, hf, toDigitsCore_four k f [] hk0 hk1, List.asString,
    Int.toNat_ofNat]

theorem padStart2_two (n : Int) (h0 : 0 ≤ n) (h1 : n ≤ 99) :
    (padStart2 (toString n)).data =
      [Nat.digitChar (n.toNat / 10), Nat.digitChar (n.toNat % 10)] := by
  obtain ⟨k, rfl⟩ : ∃ k : Nat, n = (k : Int) := ⟨n.toNat, by omega⟩
  have hk1 : k ≤ 99 := by omega
  clear h0 h1
  interval_cases k <;> rfl

theorem digitVal_digitChar (a : Nat) (h : a < 10) : digitVal (Nat.digitChar a) = some a := by
  interval_cases a <;> rfl

/-- The characters of a formatted date with a four-digit year. -/
theorem formatDate_data (t : Int) (h0 : 1000 ≤ getFullYear t) (h1 : getFullYear t ≤ 9999) :
    (formatDate (some t)).data =
      [Nat.digitChar ((getFullYear t).toNat / 1000), Nat.digitChar ((getFullYear t).toNat / 100 % 10),
        Nat.digitChar ((getFullYear t).toNat / 10 % 10), Nat.digitChar ((getFullYear t).toNat % 10),
        '-',
        Nat.digitChar ((getMonth t + 1).toNat / 10), Nat.digitChar ((getMonth t + 1).toNat % 10),
        '-',
        Nat.digitChar ((getDate t).toNat / 10), Nat.digitChar ((getDate t).toNat % 10)] := by
  have hm := civil_month_range (Day t)
  have hd := civil_day_range (Day t)
  have hm2 : 0 ≤ getMonth t + 1 ∧ getMonth t + 1 ≤ 99 := by simp only [getMonth]; omega
  have hd2 : 0 ≤ getDate t ∧ getDate t ≤ 99 := by simp only [getDate]; omega
  simp only [formatDate, String.data_append, toString_year _ h0 h1,
    padStart2_two _ hm2.1 hm2.2, padStart2_two _ hd2.1 hd2.2]
  rfl

theorem parseISODate_formatDate (t : Int) (h0 : 1000 ≤ getFullYear t)
    (h1 : getFullYear t ≤ 9999) :
    parseISODate (formatDate (some t)) = some (getFullYear t, getMonth t + 1, getDate t) := by
  have hm := civil_month_range (Day t)
  have hd := civil_day_range (Day t)
  have hm2 : 1 ≤ getMonth t + 1 ∧ getMonth t + 1 ≤ 12 := by simp only [getMonth]; omega
  have hd2 : 1 ≤ getDate t ∧ getDate t ≤ 31 := by simp only [getDate]; omega
  unfold parseISODate
  rw [formatDate_data t h0 h1]
  generalize getFullYear t = y at *
  generalize getMonth t + 1 = m at *
  generalize getDate t = d at *
  obtain ⟨y, rfl⟩ : ∃ k : Nat, y = (k : Int) := ⟨y.toNat, by omega⟩
  obtain ⟨m, rfl⟩ : ∃ k : Nat, m = (k : Int) := ⟨m.toNat, by omega⟩
  obtain ⟨d, rfl⟩ : ∃ k : Nat, d = (k : Int) := ⟨d.toNat, by omega⟩
  simp only [Int.toNat_ofNat]
  have c1 := digitVal_digitChar (y / 1000) (by omega)
  have c2 := digitVal_digitChar (y / 100 % 10) (by omega)
  have c3 := digitVal_digitChar (y / 10 % 10) (by omega)
  have c4 := digitVal_digitChar (y % 10) (by omega)
  have c5 := digitVal_digitChar (m / 10) (by omega)
  have c6 := digitVal_digitChar (m % 10) (by omega)
  have c7 := digitVal_digitChar (d / 10) (by omega)
  have c8 := digitVal_digitChar (d % 10) (by omega)
  simp only [c1, c2, c3, c4, c5, c6, c7, c8]
  have g : (1 ≤ 10 * (m / 10) + m % 10 ∧ 10 * (m / 10) + m % 10 ≤ 12 ∧
      1 ≤ 10 * (d / 10) + d % 10 ∧ 10 * (d / 10) + d % 10 ≤ 31) := by omega
  rw [if_pos g]
  have e1 : 1000 * (y / 1000) + 100 * (y / 100 % 10) + 10 * (y / 10 % 10) + y % 10 = y := by omega
  have e2 : 10 * (m / 10) + m % 10 = m := by omega
  have e3 : 10 * (d / 10) + d % 10 = d := by omega
  rw [e1, e2, e3]


/-! ## The date helpers on a zone that keeps the day -/

theorem ok_bind {ε α β : Type} (a : α) (f : α → Except ε β) :
    (Except.ok a >>= f) = f a := rfl

theorem pure_ok {ε α : Type} (a : α) : (pure a : Except ε α) = Except.ok a := rfl

theorem Day_mul (n : Int) : Day (n * secPerDay) = n := by
  simp only [Day, secPerDay]; omega

theorem formatDate_day (t : Int) : formatDate (some t) = isoOfDay (Day t) := by
  simp only [isoOfDay, formatDate, getFullYear, getMonth, getDate, Day_mul]

/-- The formatted text of the day number of a valid date is the text of
that date. -/
theorem isoOfDay_daysFromCivil (y m d : Int) (hv : ValidDate y m d) :
    isoOfDay (daysFromCivil y m d) = isoText y m d := by
  simp only [isoOfDay, formatDate, getFullYear, getMonth, getDate, Day_mul,
    civilFromDays_daysFromCivil y m d hv, sub_add_cancel, isoText]

theorem fourDigitYear_daysFromCivil (y m d : Int) (hv : ValidDate y m d) (h0 : 1000 ≤ y)
    (h1 : y ≤ 9999) : FourDigitYear (daysFromCivil y m d) := by
  simp only [FourDigitYear, civilFromDays_daysFromCivil y m d hv]
  exact ⟨h0, h1⟩

theorem parseLocal_isoOfDay (n s : Int) (hy : FourDigitYear n) :
    parseLocal (isoOfDay n) s = some (n * secPerDay + s) := by
  have h0 : 1000 ≤ getFullYear (n * secPerDay) := by
    simp only [getFullYear, Day_mul]; exact hy.1
  have h1 : getFullYear (n * secPerDay) ≤ 9999 := by
    simp only [getFullYear, Day_mul]; exact hy.2
  simp only [parseLocal, isoOfDay, parseISODate_formatDate _ h0 h1, add_sub_cancel_right,
    MakeDay_fields, Day_mul, sub_self, add_zero]

theorem isoOfDay_inj (a b : Int) (ha : FourDigitYear a) (hb : FourDigitYear b)
    (h : isoOfDay a = isoOfDay b) : a = b := by
  have e1 := parseLocal_isoOfDay a 0 ha
  have e2 := parseLocal_isoOfDay b 0 hb
  rw [h, e2] at e1
  simp only [Option.some.injEq, add_zero, secPerDay] at e1
  omega

theorem localISOInZone_iso (h : Host) (tz : String) (n s : Int) (hy : FourDigitYear n) :
    localISOInZone h (isoOfDay n) s tz = inZone h tz (some (h.localToUTC (n * secPerDay + s))) := by
  simp only [localISOInZone, parseLocal_isoOfDay n s hy, Option.map_some']

/-- The clock reading behind `zoneDay`. -/
theorem inZone_of_zoneDay (h : Host) (tz : String) (n s m : Int)
    (hz : zoneDay h tz n s = some m) :
    ∃ t, inZone h tz (some (h.localToUTC (n * secPerDay + s))) = .ok (some t) ∧ Day t = m := by
  unfold zoneDay at hz
  unfold inZone
  cases hoff : h.zoneOffset tz with
  | none => rw [hoff] at hz; cases hz
  | some off =>
    rw [hoff] at hz
    simp only [Option.some.injEq] at hz
    exact ⟨_, rfl, hz⟩

theorem isWeekendISO_iso (h : Host) (tz : String) (n : Int) (hy : FourDigitYear n)
    (hz : zoneDay h tz n 0 = some n) :
    isWeekendISO h (isoOfDay n) tz = .ok (weekday n == 0 || weekday n == 6) := by
  obtain ⟨t, ht, hd⟩ := inZone_of_zoneDay h tz n 0 n hz
  simp only [isWeekendISO, localISOInZone_iso h tz n 0 hy, ht, getDay, hd, weekday, ok_bind,
    pure_ok]

theorem adjustForWeekend_iso (h : Host) (tz : String) (n : Int) (hy : FourDigitYear n)
    (hz : zoneDay h tz n (9 * 3600) = some n) :
    adjustForWeekend h (isoOfDay n) tz =
      .ok (isoOfDay (if weekday n = 6 then n - 1 else if weekday n = 0 then n - 2 else n)) := by
  obtain ⟨t, ht, hd⟩ := inZone_of_zoneDay h tz n (9 * 3600) n hz
  have e1 : setDate t (getDate t - 1) = t + (-1) * secPerDay := by
    rw [← setDate_shift]; rfl
  have e2 : setDate t (getDate t - 2) = t + (-2) * secPerDay := by
    rw [← setDate_shift]; rfl
  simp only [adjustForWeekend, localISOInZone_iso h tz n (9 * 3600) hy, ht, getDay, hd, weekday,
    e1, e2, formatDate_day, Day_shift, ok_bind, pure_ok]
  by_cases c6 : (n + 4) % 7 = 6
  · simp only [c6, if_true]; rfl
  · by_cases c0 : (n + 4) % 7 = 0
    · simp only [c6, c0, if_true, if_false]; rfl
    · simp only [c6, c0, if_false]

theorem finalSendDate_iso (h : Host) (tz : String) (n : Int) (hy : FourDigitYear n)
    (hz : zoneDay h tz n (9 * 3600) = some n) (hs : DateStable h tz (n - 1)) :
    finalSendDate h (isoOfDay n) tz = .ok (isoOfDay (sendDay n)) := by
  obtain ⟨t, ht, hd⟩ := inZone_of_zoneDay h tz n (9 * 3600) n hz
  have e1 : setDate t (getDate t - 1) = t + (-1) * secPerDay := by
    rw [← setDate_shift]; rfl
  have e3 : Day t + -1 = n - 1 := by omega
  simp only [finalSendDate, localISOInZone_iso h tz n (9 * 3600) hy, ht, Option.map_some', e1,
    formatDate_day, Day_shift, e3, isWeekendISO_iso h tz (n - 1) hs.1 hs.2.1,
    adjustForWeekend_iso h tz (n - 1) hs.1 hs.2.2, sendDay, ok_bind, pure_ok]
  by_cases c6 : weekday (n - 1) = 6
  · have e : n - 1 - 1 = n - 2 := by omega
    simp [c6, e]
  · by_cases c0 : weekday (n - 1) = 0
    · have e : n - 1 - 2 = n - 3 := by omega
      simp [c0, e]
    · simp [c6, c0]



/-! ## Candidate selection -/

/-- Every candidate carries the target due date. -/
theorem dueChildren_nextDueDate (T : String) (children : List (String × Option Child))
    (x : String × Child) (hx : x ∈ dueChildren T children) : x.2.nextDueDate = some T := by
  simp only [dueChildren, List.mem_filterMap] at hx
  obtain ⟨entry, _, he⟩ := hx
  cases hc : entry.2 with
  | none => rw [hc] at he; cases he
  | some c =>
    rw [hc] at he
    simp only at he
    split at he
    · cases he
    · split at he
      · split at he
        · cases he
        · cases he; assumption
      · cases he

/-! ## The date helpers where the zone shows the process's date -/

theorem sendDay_range (n : Int) : n - 3 ≤ sendDay n ∧ sendDay n ≤ n - 1 := by
  unfold sendDay; split
  · omega
  · split <;> omega

theorem sendDay_weekday (n : Int) : 1 ≤ weekday (sendDay n) ∧ weekday (sendDay n) ≤ 5 := by
  unfold sendDay
  split
  · simp only [weekday] at *; omega
  · split <;> simp only [weekday] at * <;> omega

/-- Where the zone's clock shows the date itself at 09:00 on the process
clock, `adjustForWeekend` does what its comments say: a Saturday goes back one
day and a Sunday two days, both to a Friday, and a Monday to Friday date is
returned as it is. -/
theorem adjustForWeekend_on_matching_zone (h : Host) (tz : String) (y m d : Int)
    (hv : ValidDate y m d) (hy0 : 1000 ≤ y) (hy1 : y ≤ 9999)
    (hz : zoneDay h tz (daysFromCivil y m d) (9 * 3600) = some (daysFromCivil y m d)) :
    (weekday (daysFromCivil y m d) = 6 →
        adjustForWeekend h (isoText y m d) tz = .ok (isoOfDay (daysFromCivil y m d - 1)) ∧
          weekday (daysFromCivil y m d - 1) = 5) ∧
      (weekday (daysFromCivil y m d) = 0 →
        adjustForWeekend h (isoText y m d) tz = .ok (isoOfDay (daysFromCivil y m d - 2)) ∧
          weekday (daysFromCivil y m d - 2) = 5) ∧
      (1 ≤ weekday (daysFromCivil y m d) → weekday (daysFromCivil y m d) ≤ 5 →
        adjustForWeekend h (isoText y m d) tz = .ok (isoText y m d)) := by
  have hf := fourDigitYear_daysFromCivil y m d hv hy0 hy1
  have key := adjustForWeekend_iso h tz (daysFromCivil y m d) hf hz
  rw [isoOfDay_daysFromCivil y m d hv] at key
  rw [key]
  refine ⟨fun h6 => ?_, fun h0 => ?_, fun h1 h5 => ?_⟩
  · rw [if_pos h6]
    exact ⟨rfl, by simp only [weekday] at *; omega⟩
  · rw [if_neg (by omega), if_pos h0]
    exact ⟨rfl, by simp only [weekday] at *; omega⟩
  · rw [if_neg (by omega), if_neg (by omega), isoOfDay_daysFromCivil y m d hv]

/-- Example: Saturday 2022-01-01 in Asia/Kolkata on a UTC host goes back to
Friday 2021-12-31, across the year boundary. -/
theorem adjustForWeekend_on_matching_zone_witness :
    ValidDate 2022 1 1 ∧
      zoneDay hostUTC "Asia/Kolkata" (daysFromCivil 2022 1 1) (9 * 3600) =
        some (daysFromCivil 2022 1 1) ∧
      weekday (daysFromCivil 2022 1 1) = 6 ∧ isoText 2022 1 1 = "2022-01-01" ∧
      isoOfDay (daysFromCivil 2022 1 1 - 1) = "2021-12-31" ∧
      adjustForWeekend hostUTC (isoText 2022 1 1) "Asia/Kolkata" =
        .ok (isoOfDay (daysFromCivil 2022 1 1 - 1)) :=
  ⟨by decide, by decide, by decide, by decide, by decide,
    ((adjustForWeekend_on_matching_zone hostUTC "Asia/Kolkata" 2022 1 1 (by decide) (by decide)
      (by decide) (by decide)).1 (by decide)).1⟩

/-- C3 at a failing input: on a process running in UTC, for the zone
Pacific/Honolulu `adjustForWeekend` moves Monday 2025-01-06 to Friday
2025-01-03 and returns Monday 2025-01-06 for Tuesday 2025-01-07, where the
claim has a Monday to Friday date returned as it is. -/
theorem adjustForWeekend_monday_moved :
    ValidDate 2025 1 6 ∧ isoText 2025 1 6 = "2025-01-06" ∧
      weekday (daysFromCivil 2025 1 6) = 1 ∧
      adjustForWeekend hostUTC "2025-01-06" "Pacific/Honolulu" = .ok "2025-01-03" ∧
      ValidDate 2025 1 7 ∧ isoText 2025 1 7 = "2025-01-07" ∧
      weekday (daysFromCivil 2025 1 7) = 2 ∧
      adjustForWeekend hostUTC "2025-01-07" "Pacific/Honolulu" = .ok "2025-01-06" := by
  refine ⟨by decide, by decide, by decide, by rfl, by decide, by decide, by decide, by rfl⟩

/-- Where the recipient's zone shows the process's calendar date at 00:00 and
09:00 on the due date and the three days before it, the final send date is
not a weekend for `isWeekendISO`. -/
theorem finalSendDate_not_weekend (h : Host) (tz : String) (y m d : Int)
    (hv : ValidDate y m d)
    (hs : ∀ k, daysFromCivil y m d - 3 ≤ k → k ≤ daysFromCivil y m d → DateStable h tz k) :
    ∃ s, finalSendDate h (isoText y m d) tz = .ok s ∧ isWeekendISO h s tz = .ok false := by
  rw [← isoOfDay_daysFromCivil y m d hv]
  generalize daysFromCivil y m d = n at hs
  have hn := hs n (by omega) (by omega)
  have hn1 := hs (n - 1) (by omega) (by omega)
  have hr := sendDay_range n
  have hsd := hs (sendDay n) hr.1 (by omega)
  have hw := sendDay_weekday n
  refine ⟨isoOfDay (sendDay n), finalSendDate_iso h tz n hn.1 hn.2.2 hn1, ?_⟩
  rw [isWeekendISO_iso h tz (sendDay n) hsd.1 hsd.2.1]
  have a : ¬ weekday (sendDay n) = 0 := by omega
  have b : ¬ weekday (sendDay n) = 6 := by omega
  simp [a, b]

/-- Example: due date Monday 2025-01-06 in Asia/Kolkata on a UTC host. -/
theorem finalSendDate_not_weekend_witness :
    ValidDate 2025 1 6 ∧
      (∀ k : Int, daysFromCivil 2025 1 6 - 3 ≤ k → k ≤ daysFromCivil 2025 1 6 →
        DateStable hostUTC "Asia/Kolkata" k) ∧
      ∃ s, finalSendDate hostUTC (isoText 2025 1 6) "Asia/Kolkata" = .ok s ∧
        isWeekendISO hostUTC s "Asia/Kolkata" = .ok false :=
  have hk : ∀ k : Int, daysFromCivil 2025 1 6 - 3 ≤ k → k ≤ daysFromCivil 2025 1 6 →
      DateStable hostUTC "Asia/Kolkata" k := by
    intro k h0 h1
    have e : daysFromCivil 2025 1 6 = 20094 := by decide
    rw [e] at h0 h1
    have h2 : 20091 ≤ k := by omega
    interval_cases k <;> decide
  ⟨by decide, hk, finalSendDate_not_weekend hostUTC "Asia/Kolkata" 2025 1 6 (by decide) hk⟩

/-- C4 at a failing input: on a process running in UTC, for a recipient in
America/New_York and the due date Tuesday 2025-01-07, the final send date of
the run is 2025-01-06 and `isWeekendISO` holds of it, where the claim has it
false; `isWeekendISO` reads the date at 00:00 and sees Sunday evening, while
`adjustForWeekend` reads it at 09:00, sees Monday and leaves it. -/
theorem finalSendDate_weekend_new_york :
    ValidDate 2025 1 7 ∧ isoText 2025 1 7 = "2025-01-07" ∧
      finalSendDate hostUTC "2025-01-07" "America/New_York" = .ok "2025-01-06" ∧
      isWeekendISO hostUTC "2025-01-06" "America/New_York" = .ok true ∧
      adjustForWeekend hostUTC "2025-01-06" "America/New_York" = .ok "2025-01-06" := by
  refine ⟨by decide, by decide, by rfl, by rfl, by rfl⟩

/-- Under the same condition on the recipient's zone, the send date for a
valid target due date D is D minus 1 day when D-1 is a Monday to Friday,
D minus 2 days when D-1 is a Saturday and D minus 3 days when D-1 is a Sunday,
printed as zero-padded `YYYY-MM-DD`; and the due date of the first candidate,
from which the run computes it, is the target due date. -/
theorem finalSendDate_value (h : Host) (tz : String) (y m d : Int) (hv : ValidDate y m d)
    (hs : ∀ k, daysFromCivil y m d - 3 ≤ k → k ≤ daysFromCivil y m d → DateStable h tz k) :
    (1 ≤ weekday (daysFromCivil y m d - 1) → weekday (daysFromCivil y m d - 1) ≤ 5 →
        finalSendDate h (isoText y m d) tz = .ok (isoOfDay (daysFromCivil y m d - 1))) ∧
      (weekday (daysFromCivil y m d - 1) = 6 →
        finalSendDate h (isoText y m d) tz = .ok (isoOfDay (daysFromCivil y m d - 2))) ∧
      (weekday (daysFromCivil y m d - 1) = 0 →
        finalSendDate h (isoText y m d) tz = .ok (isoOfDay (daysFromCivil y m d - 3))) ∧
      (∀ k, daysFromCivil y m d - 3 ≤ k → k ≤ daysFromCivil y m d →
        parseISODate (isoOfDay k) = some (civilFromDays k) ∧ (isoOfDay k).length = 10) ∧
      ∀ (children : List (String × Option Child)) (first : String × Child)
        (rest : List (String × Child)),
        dueChildren (isoText y m d) children = first :: rest →
          first.2.nextDueDate.getD "undefined" = isoText y m d := by
  rw [← isoOfDay_daysFromCivil y m d hv]
  generalize daysFromCivil y m d = n at hs
  have hn := hs n (by omega) (by omega)
  have hn1 := hs (n - 1) (by omega) (by omega)
  have key := finalSendDate_iso h tz n hn.1 hn.2.2 hn1
  rw [key]
  refine ⟨fun h1 h5 => ?_, fun h6 => ?_, fun h0 => ?_, fun k hk0 hk1 => ?_, ?_⟩
  · unfold sendDay; rw [if_neg (by omega), if_neg (by omega)]
  · unfold sendDay; rw [if_pos h6]
  · unfold sendDay; rw [if_neg (by omega), if_pos h0]
  · have hk := (hs k hk0 hk1).1
    have h0 : 1000 ≤ getFullYear (k * secPerDay) := by
      simp only [getFullYear, Day_mul]; exact hk.1
    have h1 : getFullYear (k * secPerDay) ≤ 9999 := by
      simp only [getFullYear, Day_mul]; exact hk.2
    constructor
    · rw [isoOfDay, parseISODate_formatDate _ h0 h1]
      simp only [getFullYear, getMonth, getDate, Day_mul, sub_add_cancel]
    · rw [isoOfDay, String.length, formatDate_data _ h0 h1]
      rfl
  · intro children first rest hd
    have := dueChildren_nextDueDate (isoOfDay n) children first (by rw [hd]; simp)
    rw [this]; rfl

/-- Example: due date Monday 2025-01-06 in Asia/Kolkata on a UTC host; the
day before is a Sunday and the send date is Friday 2025-01-03. -/
theorem finalSendDate_value_witness :
    ValidDate 2025 1 6 ∧
      (∀ k : Int, daysFromCivil 2025 1 6 - 3 ≤ k → k ≤ daysFromCivil 2025 1 6 →
        DateStable hostUTC "Asia/Kolkata" k) ∧
      weekday (daysFromCivil 2025 1 6 - 1) = 0 ∧
      isoText 2025 1 6 = "2025-01-06" ∧ isoOfDay (daysFromCivil 2025 1 6 - 3) = "2025-01-03" ∧
      finalSendDate hostUTC (isoText 2025 1 6) "Asia/Kolkata" =
        .ok (isoOfDay (daysFromCivil 2025 1 6 - 3)) :=
  have hk : ∀ k : Int, daysFromCivil 2025 1 6 - 3 ≤ k → k ≤ daysFromCivil 2025 1 6 →
      DateStable hostUTC "Asia/Kolkata" k := by
    intro k h0 h1
    have e : daysFromCivil 2025 1 6 = 20094 := by decide
    rw [e] at h0 h1
    have h2 : 20091 ≤ k := by omega
    interval_cases k <;> decide
  ⟨by decide, hk, by decide, by decide, by decide,
    (finalSendDate_value hostUTC "Asia/Kolkata" 2025 1 6 (by decide) hk).2.2.1 (by decide)⟩

/-- C5 at a failing input: on a process running in UTC, for a recipient in
America/New_York and the due date Sunday 2025-01-05, D-1 is Saturday
2025-01-04 and the send date stays that Saturday, where the claim has D-2,
Friday 2025-01-03; `isWeekendISO` reads the Saturday at 00:00 and sees Friday
evening, while `adjustForWeekend` on the same date returns the Friday. -/
theorem finalSendDate_saturday_new_york :
    ValidDate 2025 1 5 ∧ isoText 2025 1 5 = "2025-01-05" ∧
      weekday (daysFromCivil 2025 1 5 - 1) = 6 ∧
      isoOfDay (daysFromCivil 2025 1 5 - 2) = "2025-01-03" ∧
      finalSendDate hostUTC "2025-01-05" "America/New_York" = .ok "2025-01-04" ∧
      isWeekendISO hostUTC "2025-01-04" "America/New_York" = .ok false ∧
      adjustForWeekend hostUTC "2025-01-04" "America/New_York" = .ok "2025-01-03" := by
  refine ⟨by decide, by decide, by decide, by decide, by rfl, by rfl, by rfl⟩

/-! ## Candidate selection and the unit of a recipient -/

theorem dueChildren_mem_imp (T : String) (children : List (String × Option Child))
    (childId : String) (child : Child) (hmem : (childId, child) ∈ dueChildren T children) :
    (childId, some child) ∈ children ∧ child.nextDueDate = some T ∧
      child.lastNotifiedDate ≠ some T ∧ T ≠ "" := by
  simp only [dueChildren, List.mem_filterMap] at hmem
  obtain ⟨entry, hmem, he⟩ := hmem
  cases hc : entry.2 with
  | none => rw [hc] at he; cases he
  | some c =>
    rw [hc] at he
    simp only at he
    split at he
    · cases he
    · split at he
      · split at he
        · cases he
        · rename_i htr hnd hln
          simp only [Option.some.injEq, Prod.mk.injEq] at he
          obtain ⟨h1, h2⟩ := he
          subst h2
          have hT : T ≠ "" := by
            intro hT
            apply htr
            simp [hnd, truthy, hT]
          refine ⟨?_, hnd, ?_, hT⟩
          · have : entry = (childId, some c) := by
              cases entry; simp only at hc h1; simp [hc, h1]
            rw [← this]; exact hmem
          · intro hl
            apply hln
            simp [hl, truthy, hT]
      · cases he

theorem dueChildren_mem_of (T : String) (hT : T ≠ "") (children : List (String × Option Child))
    (childId : String) (child : Child) (hmem : (childId, some child) ∈ children)
    (hnd : child.nextDueDate = some T) (hln : child.lastNotifiedDate ≠ some T) :
    (childId, child) ∈ dueChildren T children := by
  simp only [dueChildren, List.mem_filterMap]
  refine ⟨(childId, some child), hmem, ?_⟩
  simp [hnd, truthy]
  exact ⟨hT, fun _ => hln⟩

theorem prepare_eq (h : Host) (now : Int) (T parentId : String) (parent : Parent) :
    prepare h now T parentId parent =
      if parent.muteReminders = true ∨ parent.fcmTokens = [] ∨
          dueChildren T parent.children = [] then .ok none
      else
        match finalSendDate h T (timezoneOf parent), todayISO h now (timezoneOf parent) with
        | .error e, _ => .error e
        | .ok _, .error e => .error e
        | .ok send, .ok today =>
          if send = today then .ok (some (unitOf T parentId parent)) else .ok none := by
  unfold prepare
  by_cases hm : parent.muteReminders = true
  · simp [hm, pure_ok]
  · by_cases ht : parent.fcmTokens = []
    · simp [hm, ht, pure_ok]
    · cases hd : dueChildren T parent.children with
      | nil => simp [hm, ht, pure_ok]
      | cons first rest =>
        have hfirst : first.2.nextDueDate = some T :=
          dueChildren_nextDueDate T parent.children first (by rw [hd]; simp)
        simp only [hm, ht, List.length_eq_zero, if_false, false_or, hfirst, Option.getD_some,
          Bool.false_eq_true, reduceCtorEq]
        cases hf : finalSendDate h T (timezoneOf parent) with
        | error e => simp [bind, Except.bind]
        | ok send =>
          cases hto : todayISO h now (timezoneOf parent) with
          | error e => simp [bind, Except.bind]
          | ok today =>
            by_cases hst : send = today
            · simp [bind, Except.bind, hst, pure_ok, unitOf, hd]
            · simp [bind, Except.bind, hst, pure_ok]

theorem prepare_some (h : Host) (now : Int) (T parentId : String) (parent : Parent)
    (u : DispatchUnit) (hu : prepare h now T parentId parent = .ok (some u)) :
    u = unitOf T parentId parent ∧ Eligible h now T parent := by
  rw [prepare_eq] at hu
  split at hu
  · cases hu
  · rename_i hc
    simp only [not_or] at hc
    split at hu
    · cases hu
    · cases hu
    · rename_i send today hf hto
      split at hu
      · rename_i hst
        simp only [Except.ok.injEq, Option.some.injEq] at hu
        refine ⟨hu.symm, ?_, hc.2.1, hc.2.2, ?_⟩
        · simpa using hc.1
        · simp [sendsToday, hf, hto, hst]
      · cases hu

theorem prepare_of_eligible (h : Host) (now : Int) (T parentId : String) (parent : Parent)
    (he : Eligible h now T parent) :
    prepare h now T parentId parent = .ok (some (unitOf T parentId parent)) := by
  obtain ⟨h1, h2, h3, h4⟩ := he
  rw [prepare_eq]
  have hc : ¬ (parent.muteReminders = true ∨ parent.fcmTokens = [] ∨
      dueChildren T parent.children = []) := by
    simp [h1, h2, h3]
  rw [if_neg hc]
  unfold sendsToday at h4
  split at h4
  · rename_i send today hf hto
    simp only [beq_iff_eq] at h4
    simp [hf, hto, h4]
  · cases h4

/-- A recipient that is not eligible and whose zone is known gets no unit. -/
theorem prepare_of_not_eligible (h : Host) (now : Int) (T parentId : String) (parent : Parent)
    (hz : (h.zoneOffset (timezoneOf parent)).isSome = true) (he : ¬ Eligible h now T parent) :
    prepare h now T parentId parent = .ok none := by
  cases hp : prepare h now T parentId parent with
  | ok r =>
    cases r with
    | none => rfl
    | some u => exact absurd (prepare_some h now T parentId parent u hp).2 he
  | error e =>
    exfalso
    rw [prepare_eq] at hp
    split at hp
    · cases hp
    · cases hoff : h.zoneOffset (timezoneOf parent) with
      | none => rw [hoff] at hz; cases hz
      | some off =>
        have hin : ∀ x, ∃ r, inZone h (timezoneOf parent) x = .ok r := by
          intro x; cases x with
          | none => exact ⟨_, rfl⟩
          | some t => exact ⟨some (t + off t), by simp [inZone, hoff]⟩
        have hloc : ∀ iso s, ∃ r, localISOInZone h iso s (timezoneOf parent) = .ok r :=
          fun iso s => hin _
        have hwk : ∀ iso, ∃ r, isWeekendISO h iso (timezoneOf parent) = .ok r := by
          intro iso
          obtain ⟨r, hr⟩ := hloc iso 0
          unfold isWeekendISO
          rw [hr]
          cases r <;> exact ⟨_, rfl⟩
        have hadj : ∀ iso, ∃ r, adjustForWeekend h iso (timezoneOf parent) = .ok r := by
          intro iso
          obtain ⟨r, hr⟩ := hloc iso (9 * 3600)
          unfold adjustForWeekend
          rw [hr]
          cases r with
          | none => exact ⟨_, rfl⟩
          | some t =>
            simp only [ok_bind, pure_ok]
            split
            · exact ⟨_, rfl⟩
            · split <;> exact ⟨_, rfl⟩
        have hfin : ∃ r, finalSendDate h T (timezoneOf parent) = .ok r := by
          obtain ⟨r, hr⟩ := hloc T (9 * 3600)
          unfold finalSendDate
          rw [hr]
          simp only [ok_bind]
          obtain ⟨b, hb⟩ := hwk (formatDate (r.map fun t => setDate t (getDate t - 1)))
          rw [hb]
          simp only [ok_bind]
          cases b
          · exact ⟨_, rfl⟩
          · simpa using hadj _
        have htod : ∃ r, todayISO h now (timezoneOf parent) = .ok r := by
          obtain ⟨r, hr⟩ := hin (some now)
          unfold todayISO
          rw [hr]
          exact ⟨_, rfl⟩
        obtain ⟨r1, hr1⟩ := hfin
        obtain ⟨r2, hr2⟩ := htod
        rw [hr1, hr2] at hp
        simp only at hp
        split at hp <;> cases hp


/-! ## The claims on candidate selection, the store and the promise chain -/

/-- C1: for every non-empty target due date T, an event is placed in
`dueChildren` if and only if its `nextDueDate` equals T and its
`lastNotifiedDate` is absent or differs from T; so no event with another due
date, and no event already notified for T, is a candidate. -/
theorem mem_dueChildren_iff (T : String) (hT : T ≠ "") (children : List (String × Option Child))
    (childId : String) (child : Child) :
    ((childId, child) ∈ dueChildren T children ↔
        (childId, some child) ∈ children ∧ child.nextDueDate = some T ∧
          child.lastNotifiedDate ≠ some T) ∧
      (child.nextDueDate ≠ some T → (childId, child) ∉ dueChildren T children) ∧
      (child.lastNotifiedDate = some T → (childId, child) ∉ dueChildren T children) := by
  refine ⟨⟨fun hm => ?_, fun hc => ?_⟩, fun hne hm => ?_, fun he hm => ?_⟩
  · have := dueChildren_mem_imp T children childId child hm
    exact ⟨this.1, this.2.1, this.2.2.1⟩
  · exact dueChildren_mem_of T hT children childId child hc.1 hc.2.1 hc.2.2
  · exact hne (dueChildren_mem_imp T children childId child hm).2.1
  · exact (dueChildren_mem_imp T children childId child hm).2.2.1 he

/-- Witness for C1: the target "2025-01-08" is not empty, and an event due on
it that was never notified is a candidate. -/
theorem mem_dueChildren_iff_witness :
    ("2025-01-08" ≠ "") ∧
      (("c1", (⟨none, none, some "2025-01-08", none⟩ : Child)) ∈
        dueChildren "2025-01-08" [("c1", some ⟨none, none, some "2025-01-08", none⟩)] ↔
        ("c1", some (⟨none, none, some "2025-01-08", none⟩ : Child)) ∈
            [("c1", some (⟨none, none, some "2025-01-08", none⟩ : Child))] ∧
          (⟨none, none, some "2025-01-08", none⟩ : Child).nextDueDate = some "2025-01-08" ∧
          (⟨none, none, some "2025-01-08", none⟩ : Child).lastNotifiedDate ≠ some "2025-01-08") :=
  ⟨by decide, (mem_dueChildren_iff "2025-01-08" (by decide)
    [("c1", some ⟨none, none, some "2025-01-08", none⟩)] "c1"
    ⟨none, none, some "2025-01-08", none⟩).1⟩

theorem updateChild_nextDueDate (fields : List (String × String)) (path : String) (c : Child) :
    (updateChild fields path c).nextDueDate = c.nextDueDate := by
  unfold updateChild
  induction fields generalizing c with
  | nil => rfl
  | cons f fs ih =>
    simp only [List.foldl_cons]
    rw [ih]
    split <;> rfl

theorem updateChild_last (fields : List (String × String)) (path T : String) (c : Child)
    (hv : ∀ f ∈ fields, f.2 = T) :
    ((updateChild fields path c).lastNotifiedDate = c.lastNotifiedDate ∧
        ¬ ∃ f ∈ fields, f.1 = path) ∨
      (updateChild fields path c).lastNotifiedDate = some T := by
  unfold updateChild
  induction fields generalizing c with
  | nil => left; simp
  | cons f fs ih =>
    simp only [List.foldl_cons]
    have hv2 : ∀ g ∈ fs, g.2 = T := fun g hg => hv g (List.mem_cons_of_mem _ hg)
    have hf : f.2 = T := hv f (List.mem_cons_self _ _)
    by_cases hp : f.1 = path
    · rw [if_pos hp]
      rcases ih { c with lastNotifiedDate := some f.2 } hv2 with h1 | h1
      · right; rw [h1.1, hf]
      · right; exact h1
    · rw [if_neg hp]
      rcases ih c hv2 with h1 | h1
      · left
        refine ⟨h1.1, ?_⟩
        rintro ⟨g, hg, hgp⟩
        rcases List.mem_cons.1 hg with rfl | hg2
        · exact hp hgp
        · exact h1.2 ⟨g, hg2, hgp⟩
      · right; exact h1

theorem dueChildren_applyUpdate (T parentId : String) (parent : Parent) :
    dueChildren T (applyUpdate (stagedUpdates T (unitOf T parentId parent)) parentId
      parent).children = [] := by
  rw [List.eq_nil_iff_forall_not_mem]
  rintro ⟨cid, c'⟩ hmem
  obtain ⟨hin, hnd, hln, hT⟩ := dueChildren_mem_imp T _ cid c' hmem
  simp only [applyUpdate, List.mem_map] at hin
  obtain ⟨entry, hentry, he⟩ := hin
  simp only [Prod.mk.injEq] at he
  obtain ⟨h1, h2⟩ := he
  cases hc : entry.2 with
  | none => rw [hc] at h2; cases h2
  | some c =>
    rw [hc] at h2
    simp only [Option.map_some', Option.some.injEq] at h2
    have hv : ∀ f ∈ stagedUpdates T (unitOf T parentId parent), f.2 = T := by
      intro f hf
      simp only [stagedUpdates, List.mem_map] at hf
      obtain ⟨dc, _, rfl⟩ := hf
      rfl
    have hnd' : c.nextDueDate = some T := by
      rw [← updateChild_nextDueDate _ (lastNotifiedPath parentId entry.1) c, h2]; exact hnd
    rcases updateChild_last _ (lastNotifiedPath parentId entry.1) T c hv with hl | hl
    · have hln' : c.lastNotifiedDate ≠ some T := by
        rw [← hl.1, h2]; exact hln
      have hme : (entry.1, some c) ∈ parent.children := by
        have : entry = (entry.1, some c) := by
          cases entry; simp only at hc; simp [hc]
        rw [← this]; exact hentry
      have hcand := dueChildren_mem_of T hT parent.children entry.1 c hme hnd' hln'
      apply hl.2
      refine ⟨(lastNotifiedPath parentId entry.1, T), ?_, rfl⟩
      simp only [stagedUpdates, List.mem_map]
      exact ⟨(entry.1, c), hcand, rfl⟩
    · rw [h2] at hl
      exact hln hl

theorem filter_failureWrites (dateNow : String → Int) (T : String) (u : DispatchUnit)
    (err : String) :
    (failureWrites dateNow T u err).filter Write.isUpdate = [] ∧
      (failureWrites dateNow T u err).filter Write.isAudit = [] ∧
      (failureWrites dateNow T u err).filter Write.isFailure = failureWrites dateNow T u err := by
  refine ⟨List.filter_eq_nil_iff.2 ?_, List.filter_eq_nil_iff.2 ?_, List.filter_eq_self.2 ?_⟩ <;>
    · intro x hx
      simp only [failureWrites, List.mem_map] at hx
      obtain ⟨dc, _, rfl⟩ := hx
      simp [Write.isUpdate, Write.isAudit, Write.isFailure]

theorem filter_auditWrites (T : String) (u : DispatchUnit) (resp : BatchResponse) :
    (auditWrites T u resp).filter Write.isUpdate = [] ∧
      (auditWrites T u resp).filter Write.isAudit = auditWrites T u resp ∧
      (auditWrites T u resp).filter Write.isFailure = [] := by
  refine ⟨List.filter_eq_nil_iff.2 ?_, List.filter_eq_self.2 ?_, List.filter_eq_nil_iff.2 ?_⟩ <;>
    · intro x hx
      simp only [auditWrites, List.mem_map] at hx
      obtain ⟨dc, _, rfl⟩ := hx
      simp [Write.isUpdate, Write.isAudit, Write.isFailure]

/-- The writes of a unit whose transport call returned a result: the audit
writes, the update, and the failure writes when the `catch` handler ran. -/
theorem settle_resolved (w : World) (T : String) (u : DispatchUnit) (resp : BatchResponse)
    (hs : w.sendMulticast u.message = .resolved resp) :
    ∃ err : Option String,
      settle w T u = auditWrites T u resp ++ [Write.update (stagedUpdates T u)] ++
        (match err with
          | none => []
          | some e => failureWrites w.dateNow T u e) := by
  unfold settle
  rw [hs]
  simp only
  split
  · exact ⟨none, by simp⟩
  · split
    · rename_i e _
      exact ⟨some e, rfl⟩
    · split
      · rename_i e _
        exact ⟨some e, rfl⟩
      · exact ⟨none, by simp⟩

/-- C2: once the update staged on the success path (`lastNotifiedDate` = T for
each candidate) is applied to the recipient record, candidate selection for
the same T is empty and the callback returns before any transport call,
whatever the clock and the host; and the success path does issue that update
for every transport result returned without error. -/
theorem rerun_after_success (h : Host) (now : Int) (T parentId : String) (parent : Parent)
    (u : DispatchUnit) (hu : prepare h now T parentId parent = .ok (some u)) :
    (∀ (w : World) (resp : BatchResponse), w.sendMulticast u.message = .resolved resp →
        Write.update (stagedUpdates T u) ∈ settle w T u) ∧
      dueChildren T (applyUpdate (stagedUpdates T u) parentId parent).children = [] ∧
      ∀ (h2 : Host) (now2 : Int),
        prepare h2 now2 T parentId (applyUpdate (stagedUpdates T u) parentId parent) =
          .ok none := by
  obtain ⟨rfl, _⟩ := prepare_some h now T parentId parent u hu
  refine ⟨?_, dueChildren_applyUpdate T parentId parent, ?_⟩
  · intro w resp hs
    obtain ⟨err, he⟩ := settle_resolved w T _ resp hs
    rw [he]
    simp
  · intro h2 now2
    rw [prepare_eq, dueChildren_applyUpdate]
    simp

/-- Witness for C2: on Tuesday 2025-01-07 (03:00 UTC) a recipient in the
reference zone with an event due 2025-01-08 is dispatched; after the update
the same record yields no candidate. -/
theorem rerun_after_success_witness :
    prepare hostUTC (20095 * 86400 + 10800) "2025-01-08" "p1" (parentWith none "2025-01-08") =
        .ok (some (unitOf "2025-01-08" "p1" (parentWith none "2025-01-08"))) ∧
      dueChildren "2025-01-08"
        (applyUpdate (stagedUpdates "2025-01-08"
          (unitOf "2025-01-08" "p1" (parentWith none "2025-01-08"))) "p1"
          (parentWith none "2025-01-08")).children = [] :=
  ⟨by rfl, (rerun_after_success hostUTC (20095 * 86400 + 10800) "2025-01-08" "p1"
    (parentWith none "2025-01-08") (unitOf "2025-01-08" "p1" (parentWith none "2025-01-08"))
    (by rfl)).2.1⟩

/-- C7: for every unit and every transport result returned without error,
whatever its counts, the promise chain issues exactly one store update, which
sets `lastNotifiedDate` to the target due date for every candidate and names
no other path, and exactly one success audit record per candidate at
`notifications/<recipient>/<event>/<target date>`, holding the body that was
sent and the two counts. -/
theorem success_path_writes (w : World) (T : String) (u : DispatchUnit) (resp : BatchResponse)
    (hs : w.sendMulticast u.message = .resolved resp) :
    (settle w T u).filter Write.isUpdate =
        [Write.update (u.dueChildren.map fun dc =>
          ("Parents/" ++ u.parentId ++ "/children/" ++ dc.1 ++ "/lastNotifiedDate", T))] ∧
      (settle w T u).filter Write.isAudit =
        u.dueChildren.map fun dc =>
          Write.audit ("notifications/" ++ u.parentId ++ "/" ++ dc.1 ++ "/" ++ T)
            u.message.body resp.successCount resp.failureCount := by
  obtain ⟨err, he⟩ := settle_resolved w T u resp hs
  have ha := filter_auditWrites T u resp
  rw [he]
  cases err with
  | none =>
    simp only [List.append_nil, List.filter_append, ha.1, ha.2.1]
    exact ⟨rfl, by simp [Write.isAudit]; rfl⟩
  | some e =>
    have hf := filter_failureWrites w.dateNow T u e
    simp only [List.filter_append, ha.1, ha.2.1, hf.1, hf.2.1]
    exact ⟨rfl, by simp [Write.isAudit]; rfl⟩

/-- Witness for C7: a transport result with no successful delivery still
marks the event as notified. -/
theorem success_path_writes_witness :
    ({ worldOf hostUTC 0 [] with
        sendMulticast := fun _ => .resolved { successCount := 0, failureCount := 1 } } :
          World).sendMulticast (unitOf "2025-01-08" "p1" (parentWith none "2025-01-08")).message =
        .resolved { successCount := 0, failureCount := 1 } ∧
      (settle { worldOf hostUTC 0 [] with
          sendMulticast := fun _ => .resolved { successCount := 0, failureCount := 1 } }
          "2025-01-08" (unitOf "2025-01-08" "p1" (parentWith none "2025-01-08"))).filter
            Write.isUpdate =
        [Write.update [("Parents/p1/children/c1/lastNotifiedDate", "2025-01-08")]] :=
  ⟨rfl, (success_path_writes _ "2025-01-08"
    (unitOf "2025-01-08" "p1" (parentWith none "2025-01-08")) _ rfl).1⟩

theorem applyWrites_failureWrites (dateNow : String → Int) (T : String) (u : DispatchUnit)
    (err : String) (parentId : String) (parent : Parent) :
    applyWrites (failureWrites dateNow T u err) parentId parent = parent := by
  unfold applyWrites failureWrites
  induction u.dueChildren with
  | nil => rfl
  | cons dc rest ih => simpa using ih

/-- C8: when the transport call is rejected, the promise chain issues no store
update and no success audit record, and exactly one failure record per
candidate at `notifications_failures/<recipient>/<event>/<target date>` with
the string form of the error and the `Date.now()` timestamp of that record;
the recipient record is left as it was, so for a unit built from it every
candidate is still a candidate for the same target due date. -/
theorem transport_error_writes (w : World) (T : String) (u : DispatchUnit) (err : String)
    (hs : w.sendMulticast u.message = .rejected err) :
    settle w T u =
        (u.dueChildren.map fun dc =>
          Write.failure ("notifications_failures/" ++ u.parentId ++ "/" ++ dc.1 ++ "/" ++ T)
            err (w.dateNow ("notifications_failures/" ++ u.parentId ++ "/" ++ dc.1 ++ "/" ++ T))) ∧
      (settle w T u).filter Write.isUpdate = [] ∧
      (settle w T u).filter Write.isAudit = [] ∧
      ∀ (parent : Parent), applyWrites (settle w T u) u.parentId parent = parent ∧
        (u.dueChildren = dueChildren T parent.children →
          dueChildren T (applyWrites (settle w T u) u.parentId parent).children =
            u.dueChildren) := by
  have he : settle w T u = failureWrites w.dateNow T u err := by
    unfold settle; rw [hs]
  have hf := filter_failureWrites w.dateNow T u err
  rw [he]
  refine ⟨rfl, hf.1, hf.2.1, fun parent => ?_⟩
  rw [applyWrites_failureWrites]
  exact ⟨rfl, fun hd => hd.symm⟩

/-- Witness for C8: a rejected transport call for a unit with one candidate. -/
theorem transport_error_writes_witness :
    ({ worldOf hostUTC 7 [] with sendMulticast := fun _ => .rejected "Error: unavailable" } :
          World).sendMulticast (unitOf "2025-01-08" "p1" (parentWith none "2025-01-08")).message =
        .rejected "Error: unavailable" ∧
      settle { worldOf hostUTC 7 [] with
          sendMulticast := fun _ => .rejected "Error: unavailable" }
          "2025-01-08" (unitOf "2025-01-08" "p1" (parentWith none "2025-01-08")) =
        [Write.failure "notifications_failures/p1/c1/2025-01-08" "Error: unavailable" 7000] :=
  ⟨rfl, (transport_error_writes _ "2025-01-08"
    (unitOf "2025-01-08" "p1" (parentWith none "2025-01-08")) "Error: unavailable" rfl).1⟩

/-! ## The run -/

theorem prepare_of_throws (h : Host) (now : Int) (T parentId : String) (parent : Parent)
    (ht : Throws h T parent) : ∃ e, prepare h now T parentId parent = .error e := by
  obtain ⟨h1, h2, h3, h4⟩ := ht
  have hnone : h.zoneOffset (timezoneOf parent) = none := by
    cases hz : h.zoneOffset (timezoneOf parent) with
    | none => rfl
    | some off => rw [hz] at h4; cases h4
  have htoday : todayISO h now (timezoneOf parent) = .error (.rangeError (timezoneOf parent)) := by
    simp only [todayISO, inZone, hnone]
    rfl
  rw [prepare_eq]
  have hc : ¬ (parent.muteReminders = true ∨ parent.fcmTokens = [] ∨
      dueChildren T parent.children = []) := by
    simp [h1, h2, h3]
  rw [if_neg hc, htoday]
  cases finalSendDate h T (timezoneOf parent) with
  | error e => exact ⟨e, rfl⟩
  | ok s => exact ⟨_, rfl⟩

theorem prepare_of_not_throws (h : Host) (now : Int) (T parentId : String) (parent : Parent)
    (hn : ¬ Throws h T parent) (he : ¬ Eligible h now T parent) :
    prepare h now T parentId parent = .ok none := by
  by_cases hc : parent.muteReminders = true ∨ parent.fcmTokens = [] ∨
      dueChildren T parent.children = []
  · rw [prepare_eq, if_pos hc]
  · simp only [not_or] at hc
    apply prepare_of_not_eligible h now T parentId parent _ he
    cases hz : (h.zoneOffset (timezoneOf parent)).isSome with
    | true => rfl
    | false =>
      exfalso
      exact hn ⟨by simpa using hc.1, hc.2.1, hc.2.2, hz⟩

theorem not_throws_of_eligible (h : Host) (now : Int) (T : String) (parent : Parent)
    (he : Eligible h now T parent) : ¬ Throws h T parent := by
  intro ht
  obtain ⟨e, hp⟩ := prepare_of_throws h now T "" parent ht
  rw [prepare_of_eligible h now T "" parent he] at hp
  cases hp

/-- The loop makes a transport call exactly for the eligible recipients
enumerated before the first recipient for which the callback throws. -/
theorem fanOut_fst (h : Host) (clock : String → Int) (T : String)
    (ps : List (String × Parent)) :
    (fanOut h clock T ps).1 =
      (ps.takeWhile fun x => decide (¬ Throws h T x.2)).filterMap fun x =>
        if Eligible h (clock x.1) T x.2 then some (unitOf T x.1 x.2) else none := by
  induction ps with
  | nil => rfl
  | cons x rest ih =>
    unfold fanOut
    by_cases ht : Throws h T x.2
    · obtain ⟨e, hp⟩ := prepare_of_throws h (clock x.1) T x.1 x.2 ht
      rw [hp]
      simp [List.takeWhile_cons, ht]
    · have hd : decide (¬ Throws h T x.2) = true := by simpa using ht
      by_cases he : Eligible h (clock x.1) T x.2
      · rw [prepare_of_eligible h (clock x.1) T x.1 x.2 he]
        simp only [List.takeWhile_cons, hd, if_true, List.filterMap_cons, if_pos he, ih]
      · rw [prepare_of_not_throws h (clock x.1) T x.1 x.2 ht he]
        simp only [List.takeWhile_cons, hd, if_true, List.filterMap_cons, if_neg he, ih]

/-- The loop runs to its end exactly when the callback throws for no
recipient. -/
theorem fanOut_snd (h : Host) (clock : String → Int) (T : String)
    (ps : List (String × Parent)) :
    (fanOut h clock T ps).2 = none ↔ ∀ x ∈ ps, ¬ Throws h T x.2 := by
  induction ps with
  | nil => simp [fanOut]
  | cons x rest ih =>
    unfold fanOut
    by_cases ht : Throws h T x.2
    · obtain ⟨e, hp⟩ := prepare_of_throws h (clock x.1) T x.1 x.2 ht
      rw [hp]
      simp [ht]
    · by_cases he : Eligible h (clock x.1) T x.2
      · rw [prepare_of_eligible h (clock x.1) T x.1 x.2 he]
        simp only [ih, List.mem_cons, forall_eq_or_imp, ht, not_false_eq_true, true_and]
      · rw [prepare_of_not_throws h (clock x.1) T x.1 x.2 ht he]
        simp only [ih, List.mem_cons, forall_eq_or_imp, ht, not_false_eq_true, true_and]

/-- What `main` does once the target due date is computed and the bulk read
has returned the recipients. -/
theorem main_read (w : World) (T : String) (ps : List (String × Parent))
    (hT : getDateInTZAddDays w.host w.now defaultTZ 1 = .ok T)
    (hp : w.parents = .resolved (some ps)) :
    (main w).dispatched = (fanOut w.host w.clock T ps).1 ∧
      ((main w).ending.status = 0 ↔
        (fanOut w.host w.clock T ps).2 = none ∧
          (fanOut w.host w.clock T ps).1.any (unhandledRejection w T) = false) ∧
      ((main w).ending.status = 0 ∨ (main w).ending.status = 1) ∧
      ∀ wr ∈ (main w).writes, wr ∈ (fanOut w.host w.clock T ps).1.flatMap (settle w T) := by
  unfold main
  rw [hT, hp]
  simp only
  rcases hfo : fanOut w.host w.clock T ps with ⟨units, e⟩
  cases e with
  | some e => simp [RunEnd.status]
  | none =>
    simp only
    by_cases hu : units.any (unhandledRejection w T) = true
    · rw [if_pos hu]
      refine ⟨rfl, by simp [RunEnd.status, hu], Or.inr rfl, ?_⟩
      intro wr hwr
      exact (List.mem_filter.1 hwr).1
    · rw [if_neg hu]
      refine ⟨rfl, by simpa [RunEnd.status] using hu, Or.inl rfl, fun wr hwr => hwr⟩

/-- C6 (amended): once the bulk read has returned the recipients, a transport
call is made for a recipient if and only if it is not muted, has a token, has
a candidate, its send date is today's local date in its zone, and the loop has
not been ended before it by a recipient for which the callback throws (one
that is not muted, has a token and a candidate, and a timezone name unknown to
the runtime); each such recipient gets exactly one call, in order, addressed
to all of its tokens; and in every run a recipient that is not eligible gets
no transport call and every store write belongs to the unit of an eligible
recipient. -/
theorem dispatch_iff_eligible (w : World) (T : String) (ps : List (String × Parent))
    (hT : getDateInTZAddDays w.host w.now defaultTZ 1 = .ok T)
    (hp : w.parents = .resolved (some ps)) :
    (main w).dispatched =
        ((ps.takeWhile fun x => decide (¬ Throws w.host T x.2)).filterMap fun x =>
          if Eligible w.host (w.clock x.1) T x.2 then some (unitOf T x.1 x.2) else none) ∧
      ((∀ x ∈ ps, ¬ Throws w.host T x.2) →
        (main w).dispatched =
          ps.filterMap fun x =>
            if Eligible w.host (w.clock x.1) T x.2 then some (unitOf T x.1 x.2) else none) ∧
      (∀ x ∈ ps, (unitOf T x.1 x.2).message.tokens = x.2.fcmTokens ∧
        (prepare w.host (w.clock x.1) T x.1 x.2 = .ok (some (unitOf T x.1 x.2)) ↔
          Eligible w.host (w.clock x.1) T x.2) ∧
        (¬ Eligible w.host (w.clock x.1) T x.2 →
          ∀ u, prepare w.host (w.clock x.1) T x.1 x.2 ≠ .ok (some u))) ∧
      ∀ wr ∈ (main w).writes, ∃ x ∈ ps, Eligible w.host (w.clock x.1) T x.2 ∧
        wr ∈ settle w T (unitOf T x.1 x.2) := by
  obtain ⟨hd, _, _, hwr⟩ := main_read w T ps hT hp
  have hfst := fanOut_fst w.host w.clock T ps
  refine ⟨hd.trans hfst, ?_, ?_, ?_⟩
  · intro hn
    rw [hd, hfst]
    congr 1
    rw [List.takeWhile_eq_self_iff]
    intro x hx
    simpa using hn x hx
  · intro x _
    refine ⟨rfl, ⟨fun hu => (prepare_some _ _ _ _ _ _ hu).2, prepare_of_eligible _ _ _ _ _⟩, ?_⟩
    intro he u hu
    exact he (prepare_some _ _ _ _ _ _ hu).2
  · intro wr hmem
    have h1 := hwr wr hmem
    rw [hfst] at h1
    simp only [List.mem_flatMap, List.mem_filterMap] at h1
    obtain ⟨u, ⟨x, hx, hxu⟩, hwu⟩ := h1
    by_cases he : Eligible w.host (w.clock x.1) T x.2
    · rw [if_pos he] at hxu
      simp only [Option.some.injEq] at hxu
      exact ⟨x, List.takeWhile_subset _ hx, he, hxu ▸ hwu⟩
    · rw [if_neg he] at hxu
      cases hxu

/-- Witness for C6: on Tuesday 2025-01-07 a UTC host reads a muted recipient
whose timezone name is unknown to the runtime and an eligible one; the loop is
not ended by the first and the second is dispatched. -/
theorem dispatch_iff_eligible_witness :
    getDateInTZAddDays hostUTC tuesdayMorning defaultTZ 1 = .ok "2025-01-08" ∧
      (worldOf hostUTC tuesdayMorning
        [("p1", { parentWith (some "Mars/Olympus") "2025-01-08" with muteReminders := true }),
          ("p2", parentWith none "2025-01-08")]).parents =
        .resolved (some
          [("p1", { parentWith (some "Mars/Olympus") "2025-01-08" with muteReminders := true }),
            ("p2", parentWith none "2025-01-08")]) ∧
      (main (worldOf hostUTC tuesdayMorning
        [("p1", { parentWith (some "Mars/Olympus") "2025-01-08" with muteReminders := true }),
          ("p2", parentWith none "2025-01-08")])).dispatched =
        [unitOf "2025-01-08" "p2" (parentWith none "2025-01-08")] :=
  ⟨by rfl, rfl,
    (dispatch_iff_eligible (worldOf hostUTC tuesdayMorning
      [("p1", { parentWith (some "Mars/Olympus") "2025-01-08" with muteReminders := true }),
        ("p2", parentWith none "2025-01-08")]) "2025-01-08" _ (by rfl) rfl).1.trans
      (by decide)⟩

/-- Counterexample to C6 as stated: the second recipient is not muted, has a
token, has a candidate, and its send date is today, yet no transport call is
made for it, because the callback throws for the first recipient, whose
timezone name the runtime rejects. -/
theorem eligible_recipient_not_dispatched :
    getDateInTZAddDays hostUTC tuesdayMorning defaultTZ 1 = .ok "2025-01-08" ∧
      Eligible hostUTC tuesdayMorning "2025-01-08" (parentWith none "2025-01-08") ∧
      (main (worldOf hostUTC tuesdayMorning
        [("p1", parentWith (some "Mars/Olympus") "2025-01-08"),
          ("p2", parentWith none "2025-01-08")])).dispatched = [] := by
  refine ⟨by rfl, by decide, by rfl⟩

theorem getDateInTZAddDays_known (h : Host) (now : Int) (tz : String) (k : Int)
    (off : Int → Int) (hoff : h.zoneOffset tz = some off) :
    getDateInTZAddDays h now tz k = .ok (isoOfDay (Day (now + off now) + k)) := by
  simp only [getDateInTZAddDays, inZone, hoff, ok_bind, pure_ok, Option.map_some',
    setDate_shift, formatDate_day, Day_shift]

/-- C9 (amended): with the target due date computed, and leaving aside the
runs whose loop completes and in which a store write of a dispatched unit is
rejected while no handler is attached to it: when the bulk read fails the run
ends with exit status 1
and no transport call or store write has been made; when it succeeds the run
ends with exit status 0, whatever the recipients and the outcome of transport
and store, unless the callback throws for a recipient (one that is not muted,
has a token and a candidate, and a timezone name unknown to the runtime), in
which case the status is 1. -/
theorem exit_status_of_run (w : World) (T : String)
    (hT : getDateInTZAddDays w.host w.now defaultTZ 1 = .ok T)
    (hu : ∀ ps, w.parents = .resolved (some ps) → (∀ x ∈ ps, ¬ Throws w.host T x.2) →
      ∀ u ∈ (main w).dispatched, unhandledRejection w T u = false) :
    ((∃ err, w.parents = .rejected err) →
        (main w).ending = .exit 1 ∧ (main w).dispatched = [] ∧ (main w).writes = []) ∧
      (w.parents = .resolved none → (main w).ending.status = 0) ∧
      (∀ ps, w.parents = .resolved (some ps) →
        ((main w).ending.status = 0 ↔ ∀ x ∈ ps, ¬ Throws w.host T x.2)) ∧
      ((main w).ending.status = 1 ↔
        (∃ err, w.parents = .rejected err) ∨
          ∃ ps, w.parents = .resolved (some ps) ∧ ∃ x ∈ ps, Throws w.host T x.2) := by
  have hrej : ∀ err, w.parents = .rejected err →
      (main w).ending = .exit 1 ∧ (main w).dispatched = [] ∧ (main w).writes = [] := by
    intro err hr
    unfold main; rw [hT, hr]; exact ⟨rfl, rfl, rfl⟩
  have hnone : w.parents = .resolved none → (main w).ending.status = 0 := by
    intro hr
    unfold main; rw [hT, hr]; rfl
  have hsome : ∀ ps, w.parents = .resolved (some ps) →
      (((main w).ending.status = 0 ↔ ∀ x ∈ ps, ¬ Throws w.host T x.2) ∧
        ((main w).ending.status = 0 ∨ (main w).ending.status = 1)) := by
    intro ps hp
    obtain ⟨hd, hst, h01, _⟩ := main_read w T ps hT hp
    have hany : (∀ x ∈ ps, ¬ Throws w.host T x.2) →
        (fanOut w.host w.clock T ps).1.any (unhandledRejection w T) = false := by
      intro hn
      rw [← hd]
      cases hc : (main w).dispatched.any (unhandledRejection w T) with
      | false => rfl
      | true =>
        obtain ⟨u, hmem, hur⟩ := List.any_eq_true.1 hc
        rw [hu ps hp hn u hmem] at hur
        cases hur
    refine ⟨?_, h01⟩
    rw [hst, fanOut_snd]
    exact ⟨fun h => h.1, fun h => ⟨h, hany h⟩⟩
  refine ⟨fun ⟨err, hr⟩ => hrej err hr, hnone, fun ps hp => (hsome ps hp).1, ?_⟩
  constructor
  · intro h1
    cases hpar : w.parents with
    | rejected err => exact Or.inl ⟨err, rfl⟩
    | resolved r =>
      cases r with
      | none => rw [hnone hpar] at h1; cases h1
      | some ps =>
        right
        refine ⟨ps, rfl, ?_⟩
        by_contra hcon
        have : (main w).ending.status = 0 :=
          ((hsome ps hpar).1).2 (fun x hx ht => hcon ⟨x, hx, ht⟩)
        omega
  · rintro (⟨err, hr⟩ | ⟨ps, hp, x, hx, ht⟩)
    · rw [(hrej err hr).1]; rfl
    · rcases (hsome ps hp).2 with h0 | h1
      · exact absurd ht (((hsome ps hp).1).1 h0 x hx)
      · exact h1

/-- Witness for C9: a run on a UTC host over a muted recipient with a timezone
name unknown to the runtime and a recipient in the reference zone whose
transport call is rejected; the run ends with status 0. -/
theorem exit_status_of_run_witness :
    getDateInTZAddDays hostUTC tuesdayMorning defaultTZ 1 = .ok "2025-01-08" ∧
      (∀ u ∈ (main { worldOf hostUTC tuesdayMorning
          [("p1", { parentWith (some "Mars/Olympus") "2025-01-08" with muteReminders := true }),
            ("p2", parentWith none "2025-01-08")] with
          sendMulticast := fun _ => .rejected "Error: unavailable" }).dispatched,
        unhandledRejection { worldOf hostUTC tuesdayMorning
          [("p1", { parentWith (some "Mars/Olympus") "2025-01-08" with muteReminders := true }),
            ("p2", parentWith none "2025-01-08")] with
          sendMulticast := fun _ => .rejected "Error: unavailable" } "2025-01-08" u = false) ∧
      (main { worldOf hostUTC tuesdayMorning
          [("p1", { parentWith (some "Mars/Olympus") "2025-01-08" with muteReminders := true }),
            ("p2", parentWith none "2025-01-08")] with
          sendMulticast := fun _ => .rejected "Error: unavailable" }).ending.status = 0 :=
  have hu : ∀ u ∈ (main { worldOf hostUTC tuesdayMorning
          [("p1", { parentWith (some "Mars/Olympus") "2025-01-08" with muteReminders := true }),
            ("p2", parentWith none "2025-01-08")] with
          sendMulticast := fun _ => .rejected "Error: unavailable" }).dispatched,
      unhandledRejection { worldOf hostUTC tuesdayMorning
          [("p1", { parentWith (some "Mars/Olympus") "2025-01-08" with muteReminders := true }),
            ("p2", parentWith none "2025-01-08")] with
          sendMulticast := fun _ => .rejected "Error: unavailable" } "2025-01-08" u = false := by
    decide
  ⟨by rfl, hu,
    ((exit_status_of_run { worldOf hostUTC tuesdayMorning
          [("p1", { parentWith (some "Mars/Olympus") "2025-01-08" with muteReminders := true }),
            ("p2", parentWith none "2025-01-08")] with
          sendMulticast := fun _ => .rejected "Error: unavailable" } "2025-01-08" (by rfl) (fun _ _ _ => hu)).2.2.1 _ rfl).2
      (by decide)⟩

/-- Counterexample to C9 as stated: in both runs the bulk read succeeds and
the run ends with exit status 1.  In the first the transport call of the first
recipient is made and the callback throws for the second, whose timezone name
the runtime rejects; in the second an audit write is rejected while the update
is pending. -/
theorem exit_one_after_successful_read :
    main (worldOf hostUTC tuesdayMorning
        [("p1", parentWith none "2025-01-08"),
          ("p2", parentWith (some "Mars/Olympus") "2025-01-08")]) =
        { ending := .exit 1,
          dispatched := [unitOf "2025-01-08" "p1" (parentWith none "2025-01-08")],
          writes := [] } ∧
      (main { worldOf hostUTC tuesdayMorning [("p1", parentWith none "2025-01-08")] with
          auditSet := fun _ => .rejectedEarly "Error: denied" }).ending = .exit 1 := by
  refine ⟨by rfl, by rfl⟩

/-! ## Recipients in the reference zone -/

theorem todayISO_known (h : Host) (now : Int) (tz : String) (off : Int → Int)
    (hoff : h.zoneOffset tz = some off) :
    todayISO h now tz = .ok (isoOfDay (Day (now + off now))) := by
  simp only [todayISO, inZone, hoff, ok_bind, pure_ok, formatDate_day]

/-- Where the zone shows the process's date, the send date for tomorrow's due
date is today exactly on Monday to Friday. -/
theorem sendsToday_reference (h : Host) (now : Int) (tz : String) (off : Int → Int)
    (hoff : h.zoneOffset tz = some off)
    (hs : ∀ k, Day (now + off now) - 2 ≤ k → k ≤ Day (now + off now) + 1 → DateStable h tz k) :
    sendsToday h now (isoOfDay (Day (now + off now) + 1)) tz = true ↔
      1 ≤ weekday (Day (now + off now)) ∧ weekday (Day (now + off now)) ≤ 5 := by
  generalize htoday : Day (now + off now) = today at hs
  have h1 := hs (today + 1) (by omega) (by omega)
  have h0 := hs today (by omega) (by omega)
  have hr := sendDay_range (today + 1)
  have hsd := hs (sendDay (today + 1)) (by omega) (by omega)
  have e : today + 1 - 1 = today := by omega
  have hfin := finalSendDate_iso h tz (today + 1) h1.1 h1.2.2 (by rw [e]; exact h0)
  have htod := todayISO_known h now tz off hoff
  rw [htoday] at htod
  have hw : 0 ≤ weekday today ∧ weekday today ≤ 6 := by simp only [weekday]; omega
  simp only [sendsToday, hfin, htod, beq_iff_eq]
  constructor
  · intro heq
    have := isoOfDay_inj _ _ hsd.1 h0.1 heq
    unfold sendDay at this
    rw [e] at this
    split at this
    · omega
    · split at this
      · omega
      · omega
  · intro hwd
    have : sendDay (today + 1) = today := by
      unfold sendDay
      rw [e, if_neg (by omega), if_neg (by omega)]
    rw [this]

/-- C10 at a failing input: with the process running in Asia/Tokyo, on
Saturday 2025-01-04 the target due date is Sunday 2025-01-05 and a recipient
in the reference zone with an event due on it is dispatched, where the claim
has no such recipient dispatched on a Saturday and no transport call for an
event due on a Sunday; `isWeekendISO` reads the Saturday at 00:00 and sees
Friday evening, while `adjustForWeekend` on the same date returns the
Friday. -/
theorem saturday_dispatch_on_tokyo_host :
    weekday (Day (saturdayMorning + 19800)) = 6 ∧
      isoText 2025 1 5 = "2025-01-05" ∧ weekday (daysFromCivil 2025 1 5) = 0 ∧
      timezoneOf (parentWith none "2025-01-05") = defaultTZ ∧
      getDateInTZAddDays hostTokyo saturdayMorning defaultTZ 1 = .ok "2025-01-05" ∧
      main (worldOf hostTokyo saturdayMorning [("p1", parentWith none "2025-01-05")]) =
        { ending := .exit 0,
          dispatched := [unitOf "2025-01-05" "p1" (parentWith none "2025-01-05")],
          writes := [Write.audit "notifications/p1/c1/2025-01-05"
              "Reminder: MMR (Asha) are due tomorrow. Please enquire or book an appointment." 1 0,
            Write.update [("Parents/p1/children/c1/lastNotifiedDate", "2025-01-05")]] } ∧
      finalSendDate hostTokyo "2025-01-05" defaultTZ = .ok "2025-01-04" ∧
      isWeekendISO hostTokyo "2025-01-04" defaultTZ = .ok false ∧
      adjustForWeekend hostTokyo "2025-01-04" defaultTZ = .ok "2025-01-03" := by
  refine ⟨by decide, by decide, by decide, by decide, by rfl, by rfl, by rfl, by rfl, by rfl⟩

end SmartVax
